import Mathlib

/-!
Verification of the `containr` dependency-injection container
(`Container.ts` / `Bootstrapping.ts`): a shallow embedding of the
resolution engine — `ConfiguredDependency`, `ArrayDependency`, the
auto-wire factory, `ServiceContainer` (resolution, child containers,
disposal) and `ServiceCollection` (registration, merge-import,
`buildContainer`).

The embedding models the TypeScript heap explicitly: dependency records,
entry arrays of `ArrayDependency`, and the key-to-record objects are
mutable heap cells addressed by natural-number references, because the
source shares these objects by reference (for example
`ArrayDependency.clone` passes its `values` array to the clone, and
`ServiceCollection.buildContainer` hands its `values` object to the new
`ServiceContainer` without copying).  JavaScript `undefined` is modelled
as an ordinary value `JsValue.undef`, since the source uses it as the
not-yet-resolved sentinel (`typeof this.value === 'undefined'`) and
JavaScript truthiness decides what `destroy` tears down.  Resolution is
a fuel-indexed interpreter threading the heap; thrown errors carry the
heap reached so far, as JavaScript exceptions do not roll back state.
Factory invocations and value-level dispose-hook invocations are
recorded in the heap so that "invoked exactly once" style properties are
observable.
-/

namespace Containr

/-- A JavaScript value, as far as the container can observe it:
`undef` is the `undefined` sentinel, `inst` is an object instance with
an identity and a flag saying whether it exposes a no-argument `dispose`
method, `ctorInst` is an instance produced by `new ctor(...args)`
remembering its positional arguments, and `arr` is an array (the result
shape of `ArrayDependency.resolveValue`). -/
inductive JsValue where
  | undef : JsValue
  | null : JsValue
  | bool (b : Bool) : JsValue
  | num (n : Int) : JsValue
  | str (s : String) : JsValue
  | inst (id : Nat) (disposable : Bool) : JsValue
  | ctorInst (id : Nat) (name : String) (args : List JsValue) : JsValue
  | arr (elems : List JsValue) : JsValue

/-- `typeof v === 'undefined'`. -/
def JsValue.isUndef : JsValue → Bool
  | .undef => true
  | _ => false

mutual

/-- Structural equality test on JavaScript values. -/
def JsValue.beq : JsValue → JsValue → Bool
  | .undef, .undef => true
  | .null, .null => true
  | .bool a, .bool b => a == b
  | .num a, .num b => a == b
  | .str a, .str b => a == b
  | .inst i a, .inst j b => i == j && a == b
  | .ctorInst i n as, .ctorInst j m bs => i == j && n == m && JsValue.beqList as bs
  | .arr as, .arr bs => JsValue.beqList as bs
  | _, _ => false

def JsValue.beqList : List JsValue → List JsValue → Bool
  | [], [] => true
  | a :: as, b :: bs => JsValue.beq a b && JsValue.beqList as bs
  | _, _ => false

end

/-- JavaScript truthiness, as used by `if (dependency && dependency.value)`
in `ServiceContainer.destroy`. -/
def JsValue.truthy : JsValue → Bool
  | .undef => false
  | .null => false
  | .bool b => b
  | .num n => n != 0
  | .str s => !s.isEmpty
  | .inst _ _ => true
  | .ctorInst _ _ _ => true
  | .arr _ => true

/-- One entry of the `@inject` metadata table: `IDependencyMetadata`. -/
structure MetaEntry where
  dependencyKey : String
  parameterIndex : Nat
  propertyKey : Option String
deriving DecidableEq

/-- A constructor (`Newable<T>`): its name and the `@inject` metadata
recorded against it (`getDependencyMetadata`). -/
structure Ctor where
  name : String
  metadata : List MetaEntry
deriving DecidableEq

/-- A `ValueFactoryDelegate`: the factory closures the container can
hold.  `const` is the `() => value` wrapper of a directly registered
value, `fresh` allocates a new object instance each time it runs (the
generic user factory), `throwErr` is a user factory that throws,
`getKey` resolves another key from the container it is given, and
`autoWire` is `createAutoWireFactory(ctor)`. -/
inductive Factory where
  | const (v : JsValue) : Factory
  | fresh (tag : String) (disposable : Bool) : Factory
  | throwErr (msg : String) : Factory
  | getKey (k : String) : Factory
  | autoWire (ctor : Ctor) : Factory

/-- Equality test on factories (used only to count invocations of a
given factory in the call log). -/
def Factory.beq : Factory → Factory → Bool
  | .const v, .const w => JsValue.beq v w
  | .fresh t a, .fresh u b => t == u && a == b
  | .throwErr m, .throwErr m' => m == m'
  | .getKey k, .getKey k' => k == k'
  | .autoWire c, .autoWire c' => c == c'
  | _, _ => false

/-- A dependency record on the heap: `configured` is a
`ConfiguredDependency` (key, factory, and its mutable `value` field,
`.undef` when unresolved); `array` is an `ArrayDependency` (key, its
mutable `resolved` flag, and a reference to its shared entry array). -/
inductive DepObj where
  | configured (key : String) (factory : Factory) (value : JsValue) : DepObj
  | array (key : String) (resolved : Bool) (entries : Nat) : DepObj

/-- The mutable JavaScript heap: dependency records, the entry arrays of
`ArrayDependency` objects, and the `Record<string, IConfiguredDependency>`
objects, each addressed by a reference.  `calls` records every factory
invocation and `disposeCalls` records every value-level `dispose()`
hook invocation (newest first). -/
structure Heap where
  deps : List (Nat × DepObj)
  entryLists : List (Nat × List Nat)
  maps : List (Nat × List (String × Nat))
  nextRef : Nat
  nextInst : Nat
  calls : List Factory
  disposeCalls : List Nat

def Heap.empty : Heap := ⟨[], [], [], 0, 0, [], []⟩

def lookupDep (h : Heap) (r : Nat) : Option DepObj :=
  (h.deps.find? (fun p => decide (p.1 = r))).map (fun p => p.2)

def updateDep (h : Heap) (r : Nat) (d : DepObj) : Heap :=
  { h with deps := h.deps.map (fun p => if p.1 = r then (r, d) else p) }

def allocDep (h : Heap) (d : DepObj) : Nat × Heap :=
  (h.nextRef, { h with deps := (h.nextRef, d) :: h.deps, nextRef := h.nextRef + 1 })

def lookupEntryList (h : Heap) (r : Nat) : Option (List Nat) :=
  (h.entryLists.find? (fun p => decide (p.1 = r))).map (fun p => p.2)

def updateEntryList (h : Heap) (r : Nat) (l : List Nat) : Heap :=
  { h with entryLists := h.entryLists.map (fun p => if p.1 = r then (r, l) else p) }

def allocEntryList (h : Heap) (l : List Nat) : Nat × Heap :=
  (h.nextRef, { h with entryLists := (h.nextRef, l) :: h.entryLists, nextRef := h.nextRef + 1 })

def lookupMap (h : Heap) (r : Nat) : Option (List (String × Nat)) :=
  (h.maps.find? (fun p => decide (p.1 = r))).map (fun p => p.2)

def updateMap (h : Heap) (r : Nat) (f : List (String × Nat) → List (String × Nat)) : Heap :=
  { h with maps := h.maps.map (fun p => if p.1 = r then (r, f p.2) else p) }

def allocMap (h : Heap) (m : List (String × Nat)) : Nat × Heap :=
  (h.nextRef, { h with maps := (h.nextRef, m) :: h.maps, nextRef := h.nextRef + 1 })

/-- Property read on a JavaScript object used as a map. -/
def getProp (m : List (String × Nat)) (k : String) : Option Nat :=
  (m.find? (fun p => decide (p.1 = k))).map (fun p => p.2)

/-- Property write on a JavaScript object used as a map: an existing key
keeps its position, a new key is appended (JavaScript insertion order). -/
def setProp (m : List (String × Nat)) (k : String) (r : Nat) : List (String × Nat) :=
  if m.any (fun p => decide (p.1 = k)) then
    m.map (fun p => if p.1 = k then (k, r) else p)
  else
    m ++ [(k, r)]

/-- `this.values[key]` on a container or collection whose `values`
object lives at map reference `r`. -/
def getMapProp (h : Heap) (r : Nat) (k : String) : Option Nat :=
  match lookupMap h r with
  | some m => getProp m k
  | none => none

/-- `ServiceContainer`: its `values` object reference, its optional
parent, and its provenance label. -/
inductive ServiceContainer where
  | mk (valuesRef : Nat) (parent : Option ServiceContainer) (provenance : Option String)

def ServiceContainer.valuesRef : ServiceContainer → Nat
  | .mk v _ _ => v

def ServiceContainer.parent : ServiceContainer → Option ServiceContainer
  | .mk _ p _ => p

/-- `isResolved()` of the record at reference `r`:
`ConfiguredDependency` checks `typeof this.value !== 'undefined'`,
`ArrayDependency` returns its `resolved` flag. -/
def depIsResolved (h : Heap) (r : Nat) : Bool :=
  match lookupDep h r with
  | some (.configured _ _ v) => !v.isUndef
  | some (.array _ res _) => res
  | none => false

/-- Number of times factory `f` has been invoked according to the call log. -/
def countCalls (f : Factory) (l : List Factory) : Nat :=
  (l.filter (fun g => Factory.beq g f)).length

mutual

/-- `ServiceContainer._getService` (the single-key path of `get`):
look the key up in the local `values`; if present, `resolveValue(this)`;
if absent and a parent exists, delegate to the parent's `get`; if absent
with no parent, `UnknownDependency.resolveValue` throws
`Unrecognized service: <key>`. -/
def getService (fuel : Nat) (c : ServiceContainer) (key : String) (h : Heap) :
    Except String JsValue × Heap :=
  match fuel with
  | 0 => (.error "out of fuel", h)
  | n + 1 =>
    match getMapProp h c.valuesRef key with
    | some r => resolveDep n r c h
    | none =>
      match c.parent with
      | some p => getService n p key h
      | none => (.error ("Unrecognized service: " ++ key), h)

/-- `resolveValue(container)` of the record at reference `r`.
`ConfiguredDependency`: if `value` is `undefined`, run the factory and
store the result, then return `value`.  `ArrayDependency`: set
`resolved = true` first, then resolve every entry against the given
container and return the array of results. -/
def resolveDep (fuel : Nat) (r : Nat) (c : ServiceContainer) (h : Heap) :
    Except String JsValue × Heap :=
  match fuel with
  | 0 => (.error "out of fuel", h)
  | n + 1 =>
    match lookupDep h r with
    | none => (.error "missing dependency record", h)
    | some (.configured k f v) =>
      if v.isUndef then
        match evalFactory n f c h with
        | (.ok val, h₁) => (.ok val, updateDep h₁ r (.configured k f val))
        | (.error e, h₁) => (.error e, h₁)
      else
        (.ok v, h)
    | some (.array k _ es) =>
      match lookupEntryList (updateDep h r (.array k true es)) es with
      | none => (.error "missing entry array", updateDep h r (.array k true es))
      | some refs =>
        match resolveRefs n refs c (updateDep h r (.array k true es)) with
        | (.ok vs, h₂) => (.ok (.arr vs), h₂)
        | (.error e, h₂) => (.error e, h₂)

/-- `this.values.map((x) => x.resolveValue(container))` over the entry
references of an `ArrayDependency`, failing fast on the first throw. -/
def resolveRefs : Nat → List Nat → ServiceContainer → Heap →
    Except String (List JsValue) × Heap
  | 0, _, _, h => (.error "out of fuel", h)
  | _ + 1, [], _, h => (.ok [], h)
  | n + 1, r :: rest, c, h =>
    match resolveDep n r c h with
    | (.ok v, h₁) =>
      match resolveRefs n rest c h₁ with
      | (.ok vs, h₂) => (.ok (v :: vs), h₂)
      | (.error e, h₂) => (.error e, h₂)
    | (.error e, h₁) => (.error e, h₁)

/-- Invoke a `ValueFactoryDelegate` against a container.  The
`autoWire` case is `createAutoWireFactory`: read the metadata; if empty,
`new ctor()`; otherwise copy the metadata array, `reverse()` it (the
source comment: entries come in descending parameter order), resolve
each entry's `dependencyKey` from the container in that reversed order,
and call `new ctor(...params)` with the results positionally. -/
def evalFactory : Nat → Factory → ServiceContainer → Heap →
    Except String JsValue × Heap
  | 0, _, _, h => (.error "out of fuel", h)
  | _ + 1, .const v, _, h => (.ok v, { h with calls := .const v :: h.calls })
  | _ + 1, .fresh tag disp, _, h =>
    (.ok (.inst h.nextInst disp),
      { h with calls := .fresh tag disp :: h.calls, nextInst := h.nextInst + 1 })
  | _ + 1, .throwErr m, _, h => (.error m, { h with calls := .throwErr m :: h.calls })
  | n + 1, .getKey k, c, h => getService n c k { h with calls := .getKey k :: h.calls }
  | n + 1, .autoWire ctor, c, h =>
    if ctor.metadata.isEmpty then
      (.ok (.ctorInst h.nextInst ctor.name []),
        { h with calls := .autoWire ctor :: h.calls, nextInst := h.nextInst + 1 })
    else
      match resolveKeys n ((ctor.metadata.reverse).map (fun e => e.dependencyKey)) c
          { h with calls := .autoWire ctor :: h.calls } with
      | (.ok vs, h₁) => (.ok (.ctorInst h₁.nextInst ctor.name vs), { h₁ with nextInst := h₁.nextInst + 1 })
      | (.error e, h₁) => (.error e, h₁)

/-- `paramTypes.map((metadata) => container.get(metadata.dependencyKey))`:
resolve a list of keys left to right, failing fast. -/
def resolveKeys : Nat → List String → ServiceContainer → Heap →
    Except String (List JsValue) × Heap
  | 0, _, _, h => (.error "out of fuel", h)
  | _ + 1, [], _, h => (.ok [], h)
  | n + 1, k :: rest, c, h =>
    match getService n c k h with
    | (.ok v, h₁) =>
      match resolveKeys n rest c h₁ with
      | (.ok vs, h₂) => (.ok (v :: vs), h₂)
      | (.error e, h₂) => (.error e, h₂)
    | (.error e, h₁) => (.error e, h₁)

end

/-- `ServiceContainer.resolve(clazz)`: build the auto-wire factory for
the class and run it against this container. -/
def ServiceContainer.resolveClass (fuel : Nat) (h : Heap) (c : ServiceContainer)
    (clazz : Ctor) : Except String JsValue × Heap :=
  evalFactory fuel (.autoWire clazz) c h

/-- The heap after the optional value-level dispose hook call: the hook
is invoked (`dependency.value.dispose()`) exactly when the cached value
exposes one. -/
def hookHeap (h : Heap) (v : JsValue) : Heap :=
  match v with
  | .inst id true => { h with disposeCalls := id :: h.disposeCalls }
  | _ => h

/-- `ServiceContainer.destroy(key)`: read `this.values[key]`, cast it to
`ConfiguredDependency`, and `if (dependency && dependency.value)` call
the cached value's `dispose()` if it is a function, then set
`dependency.value = undefined`.  An `ArrayDependency` has no `value`
property, so the truthiness test fails and nothing happens. -/
def ServiceContainer.destroy (h : Heap) (c : ServiceContainer) (key : String) : Heap :=
  match getMapProp h c.valuesRef key with
  | none => h
  | some r =>
    match lookupDep h r with
    | none => h
    | some (.configured k f v) =>
      if v.truthy then
        updateDep (hookHeap h v) r (.configured k f .undef)
      else h
    | some (.array _ _ _) => h

/-- The keys of the locally held records that are `isResolved()`, in
insertion order (`Object.entries(this.values).filter(...).map(...)`). -/
def resolvedKeys (h : Heap) (c : ServiceContainer) : List String :=
  (((lookupMap h c.valuesRef).getD []).filter (fun p => depIsResolved h p.2)).map
    (fun p => p.1)

/-- `ServiceContainer.dispose()`: collect the keys of the resolved local
records, then `destroy` each of them. -/
def ServiceContainer.dispose (h : Heap) (c : ServiceContainer) : Heap :=
  (resolvedKeys h c).foldl (fun hh k => ServiceContainer.destroy hh c k) h

/-- `clone()` of the record at reference `r`, allocating the clone on
the heap.  `ConfiguredDependency.clone` builds
`new ConfiguredDependency(this.key, this.factory)` — the factory is a
function, so the clone starts with `value` undefined.
`ArrayDependency.clone` builds `new ArrayDependency(this.key, this.values)`
— the `resolved` flag resets but the clone shares the same entry array. -/
def cloneDep (h : Heap) (r : Nat) : Nat × Heap :=
  match lookupDep h r with
  | some (.configured k f _) => allocDep h (.configured k f .undef)
  | some (.array k _ es) => allocDep h (.array k false es)
  | none => (r, h)

/-- Clone a list of `(key, record reference)` pairs in order, producing
the child's `values` entries (keys are unique in a JavaScript object, so
looking the key up again yields the pair's own reference). -/
def cloneEntries : List (String × Nat) → Heap → List (String × Nat) × Heap
  | [], h => ([], h)
  | p :: rest, h =>
    let rh := cloneDep h p.2
    let mh := cloneEntries rest rh.2
    ((p.1, rh.1) :: mh.1, mh.2)

/-- `ServiceContainer.createChildContainer(provenance)`: filter the
local entries down to those that are not `isResolved()`, clone each of
them into a fresh `values` object, and build a new container whose
parent is this container. -/
def ServiceContainer.createChildContainer (h : Heap) (c : ServiceContainer)
    (provenance : String) : ServiceContainer × Heap :=
  let entries := ((lookupMap h c.valuesRef).getD []).filter
    (fun p => !depIsResolved h p.2)
  let mh := cloneEntries entries h
  let mr := allocMap mh.2 mh.1
  (.mk mr.1 (some c) (some provenance), mr.2)

/-- `ServiceCollection`: a mutable builder holding a reference to its
`values` object. -/
structure ServiceCollection where
  valuesRef : Nat

/-- A value-or-factory argument (`T | ValueFactoryDelegate<T>`); the
source discriminates with `typeof value === 'function'`. -/
inductive FactVal where
  | val (v : JsValue) : FactVal
  | fact (f : Factory) : FactVal

/-- `new ConfiguredDependency(key, value)`: a function argument becomes
the factory (value stays undefined); a non-function argument becomes
both a constant factory and the already-cached value. -/
def newConfiguredDependency (key : String) (fv : FactVal) : DepObj :=
  match fv with
  | .fact f => .configured key f .undef
  | .val v => .configured key (.const v) v

/-- A fresh, empty `ServiceCollection` (allocates its `values` object). -/
def newServiceCollection (h : Heap) : ServiceCollection × Heap :=
  let mr := allocMap h []
  (⟨mr.1⟩, mr.2)

/-- `ServiceCollection.register(key, value)`: store a new
`ConfiguredDependency` under the key, replacing any prior record. -/
def ServiceCollection.register (h : Heap) (sc : ServiceCollection) (key : String)
    (fv : FactVal) : Heap :=
  let rh := allocDep h (newConfiguredDependency key fv)
  updateMap rh.2 sc.valuesRef (fun m => setProp m key rh.1)

/-- `ArrayDependency.register(value)` / `ArrayDependency.push(clazz)`
both append `new ConfiguredDependency(`key-length`, …)` to the shared
entry array; `push` uses `createAutoWireFactory(clazz)` as the value.
Fails if `r` is not an `ArrayDependency` (the source would throw a
`TypeError` calling a missing method). -/
def ArrayDependency.registerEntry (h : Heap) (r : Nat) (fv : FactVal) :
    Except String Heap :=
  match lookupDep h r with
  | some (.array k _ es) =>
    match lookupEntryList h es with
    | some refs =>
      let ekey := k ++ "-" ++ toString refs.length
      let eh := allocDep h (newConfiguredDependency ekey fv)
      .ok (updateEntryList eh.2 es (refs ++ [eh.1]))
    | none => .error "missing entry array"
  | _ => .error "TypeError: dependency.push is not a function"

/-- `ServiceCollection.add(key, clazz)`: fetch the key's
`ArrayDependency` (creating and storing an empty one if the key is
absent) and `push(clazz)` onto it. -/
def ServiceCollection.add (h : Heap) (sc : ServiceCollection) (key : String)
    (clazz : Ctor) : Except String Heap :=
  match getMapProp h sc.valuesRef key with
  | some r => ArrayDependency.registerEntry h r (.fact (.autoWire clazz))
  | none =>
    let lh := allocEntryList h []
    let rh := allocDep lh.2 (.array key false lh.1)
    let h₃ := updateMap rh.2 sc.valuesRef (fun m => setProp m key rh.1)
    ArrayDependency.registerEntry h₃ rh.1 (.fact (.autoWire clazz))

/-- `ServiceCollection.addDependency(key, value)`: like `add` but
appends a plain value-or-factory entry (`ArrayDependency.register`). -/
def ServiceCollection.addDependency (h : Heap) (sc : ServiceCollection) (key : String)
    (fv : FactVal) : Except String Heap :=
  match getMapProp h sc.valuesRef key with
  | some r => ArrayDependency.registerEntry h r fv
  | none =>
    let lh := allocEntryList h []
    let rh := allocDep lh.2 (.array key false lh.1)
    let h₃ := updateMap rh.2 sc.valuesRef (fun m => setProp m key rh.1)
    ArrayDependency.registerEntry h₃ rh.1 fv

/-- `ServiceCollection.use(key, clazz)`: sugar for registering the
auto-wire factory of the class. -/
def ServiceCollection.use (h : Heap) (sc : ServiceCollection) (key : String)
    (clazz : Ctor) : Heap :=
  ServiceCollection.register h sc key (.fact (.autoWire clazz))

/-- `ServiceCollection.isRegistered(key)`. -/
def ServiceCollection.isRegistered (h : Heap) (sc : ServiceCollection)
    (key : String) : Bool :=
  (getMapProp h sc.valuesRef key).isSome

/-- `ServiceCollection.buildContainer()`: `new ServiceContainer(this.values)`
— the container receives the collection's `values` object itself (the
same reference), with no parent. -/
def ServiceCollection.buildContainer (sc : ServiceCollection) : ServiceContainer :=
  .mk sc.valuesRef none none

/-- Models `ServiceCollection.import(collection)`: replace this
collection's `values` with the spread `{...this.values, ...collection.values}`
— a fresh object holding this collection's entries (in place) overridden
by the incoming collection's entries, with new keys appended.  Record
references are copied shallowly. -/
def ServiceCollection.mergeImport (h : Heap) (x y : ServiceCollection) :
    ServiceCollection × Heap :=
  let mx := (lookupMap h x.valuesRef).getD []
  let my := (lookupMap h y.valuesRef).getD []
  let merged := my.foldl (fun acc p => setProp acc p.1 p.2) mx
  let mr := allocMap h merged
  (⟨mr.1⟩, mr.2)

/-- `ServiceCollection.resolve(key)`: build a throwaway container from
the current records, `get` the key, and dispose the container in a
`finally` block (the heap effects of disposal happen whether or not the
lookup threw). -/
def ServiceCollection.resolve (fuel : Nat) (h : Heap) (sc : ServiceCollection)
    (key : String) : Except String JsValue × Heap :=
  let c := ServiceCollection.buildContainer sc
  let rh := getService fuel c key h
  (rh.1, ServiceContainer.dispose rh.2 c)

/-! ### Association list lemmas -/

theorem find?_map_upd {κ α : Type} [DecidableEq κ] (l : List (κ × α)) (r : κ)
    (f : κ × α → κ × α) (hf : ∀ p, (f p).1 = r) :
    (l.map (fun p => if p.1 = r then f p else p)).find? (fun p => decide (p.1 = r))
      = (l.find? (fun p => decide (p.1 = r))).map f := by
  induction l with
  | nil => simp
  | cons p rest ih =>
    by_cases hp : p.1 = r
    · rw [List.map_cons, if_pos hp, List.find?_cons_of_pos _ (by simp [hf]),
        List.find?_cons_of_pos _ (by simp [hp])]
      rfl
    · rw [List.map_cons, if_neg hp, List.find?_cons_of_neg _ (by simp [hp]),
        List.find?_cons_of_neg _ (by simp [hp]), ih]

theorem find?_map_upd_ne {κ α : Type} [DecidableEq κ] (l : List (κ × α)) (r r' : κ)
    (f : κ × α → κ × α) (hf : ∀ p, (f p).1 = r) (hne : r' ≠ r) :
    (l.map (fun p => if p.1 = r then f p else p)).find? (fun p => decide (p.1 = r'))
      = l.find? (fun p => decide (p.1 = r')) := by
  induction l with
  | nil => simp
  | cons p rest ih =>
    by_cases hp : p.1 = r
    · rw [List.map_cons, if_pos hp,
        List.find?_cons_of_neg _ (by simp [hf, Ne.symm hne]),
        List.find?_cons_of_neg _ (by simp [hp, Ne.symm hne]), ih]
    · by_cases hq : p.1 = r'
      · rw [List.map_cons, if_neg hp, List.find?_cons_of_pos _ (by simp [hq]),
          List.find?_cons_of_pos _ (by simp [hq])]
      · rw [List.map_cons, if_neg hp, List.find?_cons_of_neg _ (by simp [hq]),
          List.find?_cons_of_neg _ (by simp [hq]), ih]

theorem find?_append_none {α : Type} (l l' : List α) (p : α → Bool)
    (hnone : l.find? p = none) :
    (l ++ l').find? p = l'.find? p := by
  rw [List.find?_append, hnone, Option.none_or]

/-! ### Heap lemmas -/

theorem lookupDep_updateDep (h : Heap) (r : Nat) (d : DepObj) :
    lookupDep (updateDep h r d) r = (lookupDep h r).map (fun _ => d) := by
  simp only [lookupDep, updateDep]
  rw [find?_map_upd h.deps r (fun _ => (r, d)) (fun _ => rfl)]
  cases h.deps.find? (fun p => decide (p.1 = r)) <;> rfl

theorem lookupDep_updateDep_ne (h : Heap) (r r' : Nat) (d : DepObj) (hne : r' ≠ r) :
    lookupDep (updateDep h r d) r' = lookupDep h r' := by
  simp only [lookupDep, updateDep]
  rw [find?_map_upd_ne h.deps r r' (fun _ => (r, d)) (fun _ => rfl) hne]

theorem lookupMap_updateDep (h : Heap) (r : Nat) (d : DepObj) (m : Nat) :
    lookupMap (updateDep h r d) m = lookupMap h m := rfl

theorem lookupEntryList_updateDep (h : Heap) (r : Nat) (d : DepObj) (es : Nat) :
    lookupEntryList (updateDep h r d) es = lookupEntryList h es := rfl

theorem getMapProp_updateDep (h : Heap) (r : Nat) (d : DepObj) (m : Nat) (k : String) :
    getMapProp (updateDep h r d) m k = getMapProp h m k := rfl

theorem calls_updateDep (h : Heap) (r : Nat) (d : DepObj) :
    (updateDep h r d).calls = h.calls := rfl

theorem disposeCalls_updateDep (h : Heap) (r : Nat) (d : DepObj) :
    (updateDep h r d).disposeCalls = h.disposeCalls := rfl

theorem lookupDep_allocDep_fresh (h : Heap) (d : DepObj) :
    lookupDep (allocDep h d).2 h.nextRef = some d := by
  simp [lookupDep, allocDep]

theorem lookupDep_allocDep_ne (h : Heap) (d : DepObj) (r : Nat) (hne : r ≠ h.nextRef) :
    lookupDep (allocDep h d).2 r = lookupDep h r := by
  have hb : decide (h.nextRef = r) = false := by simp [Ne.symm hne]
  simp [lookupDep, allocDep, List.find?_cons, hb]

theorem lookupMap_allocDep (h : Heap) (d : DepObj) (m : Nat) :
    lookupMap (allocDep h d).2 m = lookupMap h m := rfl

theorem lookupMap_allocMap_fresh (h : Heap) (m : List (String × Nat)) :
    lookupMap (allocMap h m).2 h.nextRef = some m := by
  simp [lookupMap, allocMap]

theorem lookupMap_allocMap_ne (h : Heap) (m : List (String × Nat)) (r : Nat)
    (hne : r ≠ h.nextRef) :
    lookupMap (allocMap h m).2 r = lookupMap h r := by
  have hb : decide (h.nextRef = r) = false := by simp [Ne.symm hne]
  simp [lookupMap, allocMap, List.find?_cons, hb]

theorem lookupDep_allocMap (h : Heap) (m : List (String × Nat)) (r : Nat) :
    lookupDep (allocMap h m).2 r = lookupDep h r := rfl

theorem lookupMap_updateMap (h : Heap) (r : Nat)
    (f : List (String × Nat) → List (String × Nat)) :
    lookupMap (updateMap h r f) r = (lookupMap h r).map f := by
  simp only [lookupMap, updateMap]
  rw [find?_map_upd h.maps r (fun p => (r, f p.2)) (fun _ => rfl)]
  cases h.maps.find? (fun p => decide (p.1 = r)) <;> rfl

theorem lookupMap_updateMap_ne (h : Heap) (r r' : Nat)
    (f : List (String × Nat) → List (String × Nat)) (hne : r' ≠ r) :
    lookupMap (updateMap h r f) r' = lookupMap h r' := by
  simp only [lookupMap, updateMap]
  rw [find?_map_upd_ne h.maps r r' (fun p => (r, f p.2)) (fun _ => rfl) hne]

theorem lookupDep_updateMap (h : Heap) (r : Nat)
    (f : List (String × Nat) → List (String × Nat)) (d : Nat) :
    lookupDep (updateMap h r f) d = lookupDep h d := rfl

/-! ### Property lemmas on JavaScript map objects -/

theorem getProp_setProp_self (m : List (String × Nat)) (k : String) (r : Nat) :
    getProp (setProp m k r) k = some r := by
  unfold setProp
  by_cases hin : m.any (fun p => decide (p.1 = k))
  · rw [if_pos hin]
    unfold getProp
    rw [find?_map_upd m k (fun _ => (k, r)) (fun _ => rfl)]
    have hsome : (m.find? (fun p => decide (p.1 = k))).isSome := by
      rw [List.find?_isSome]
      simpa [List.any_eq_true] using hin
    cases hfind : m.find? (fun p => decide (p.1 = k)) with
    | none => rw [hfind] at hsome; simp at hsome
    | some p => simp
  · rw [if_neg hin]
    unfold getProp
    have hnone : m.find? (fun p => decide (p.1 = k)) = none := by
      rw [List.find?_eq_none]
      intro x hx
      simp only [decide_eq_true_eq]
      intro hxk
      apply hin
      rw [List.any_eq_true]
      exact ⟨x, hx, by simp [hxk]⟩
    rw [find?_append_none _ _ _ hnone]
    simp

theorem getProp_setProp_ne (m : List (String × Nat)) (k kp : String) (r : Nat)
    (hne : kp ≠ k) :
    getProp (setProp m k r) kp = getProp m kp := by
  unfold setProp getProp
  by_cases hin : m.any (fun p => decide (p.1 = k))
  · rw [if_pos hin, find?_map_upd_ne m k kp (fun _ => (k, r)) (fun _ => rfl) hne]
  · rw [if_neg hin, List.find?_append]
    have hsingle : ([(k, r)] : List (String × Nat)).find? (fun p => decide (p.1 = kp)) = none := by
      simp [Ne.symm hne]
    rw [hsingle]
    cases m.find? (fun p => decide (p.1 = kp)) <;> rfl

theorem setProp_keys_mem (m : List (String × Nat)) (k : String) (r : Nat)
    (hin : m.any (fun p => decide (p.1 = k))) :
    (setProp m k r).map Prod.fst = m.map Prod.fst := by
  unfold setProp
  rw [if_pos hin, List.map_map]
  apply List.map_congr_left
  intro p _
  by_cases hp : p.1 = k <;> simp [hp]

theorem setProp_keys_new (m : List (String × Nat)) (k : String) (r : Nat)
    (hin : ¬ m.any (fun p => decide (p.1 = k))) :
    (setProp m k r).map Prod.fst = m.map Prod.fst ++ [k] := by
  unfold setProp
  rw [if_neg hin]
  simp

theorem setProp_nodup (m : List (String × Nat)) (k : String) (r : Nat)
    (hd : (m.map Prod.fst).Nodup) : ((setProp m k r).map Prod.fst).Nodup := by
  by_cases hin : m.any (fun p => decide (p.1 = k))
  · rw [setProp_keys_mem m k r hin]; exact hd
  · rw [setProp_keys_new m k r hin]
    rw [List.nodup_append]
    refine ⟨hd, by simp, ?_⟩
    intro a ha hb
    simp only [List.mem_singleton] at hb
    subst hb
    simp only [List.mem_map] at ha
    obtain ⟨p, hp, hpk⟩ := ha
    apply hin
    rw [List.any_eq_true]
    exact ⟨p, hp, by simp [hpk]⟩


/-! ### Interpreter unfolding lemmas -/

theorem getService_local (n : Nat) (c : ServiceContainer) (key : String) (h : Heap)
    (r : Nat) (hmap : getMapProp h c.valuesRef key = some r) :
    getService (n + 1) c key h = resolveDep n r c h := by
  unfold getService
  rw [hmap]

theorem getService_parent (n : Nat) (c : ServiceContainer) (key : String) (h : Heap)
    (p : ServiceContainer) (hmap : getMapProp h c.valuesRef key = none)
    (hp : c.parent = some p) :
    getService (n + 1) c key h = getService n p key h := by
  conv_lhs => unfold getService
  rw [hmap, hp]

theorem getService_missing (n : Nat) (c : ServiceContainer) (key : String) (h : Heap)
    (hmap : getMapProp h c.valuesRef key = none) (hp : c.parent = none) :
    getService (n + 1) c key h = (.error ("Unrecognized service: " ++ key), h) := by
  unfold getService
  rw [hmap, hp]

theorem resolveDep_cached (n r : Nat) (c : ServiceContainer) (h : Heap) (k : String)
    (f : Factory) (v : JsValue) (hdep : lookupDep h r = some (.configured k f v))
    (hv : v.isUndef = false) :
    resolveDep (n + 1) r c h = (.ok v, h) := by
  unfold resolveDep
  simp [hdep, hv]

theorem resolveDep_factoryRun (n r : Nat) (c : ServiceContainer) (h : Heap) (k : String)
    (f : Factory) (hdep : lookupDep h r = some (.configured k f .undef)) :
    resolveDep (n + 1) r c h =
      match evalFactory n f c h with
      | (.ok val, h₁) => (.ok val, updateDep h₁ r (.configured k f val))
      | (.error e, h₁) => (.error e, h₁) := by
  unfold resolveDep
  rw [hdep]
  rfl

/-- `v ≠ undefined` in `Bool` form. -/
theorem isUndef_false_of_ne (v : JsValue) (hv : v ≠ .undef) : v.isUndef = false := by
  cases v <;> simp [JsValue.isUndef] at hv ⊢

/-- The interpreter never writes to any `values` map object: resolution
only mutates dependency records, entry arrays, and the logs. -/
theorem interp_preserves_maps : ∀ fuel : Nat,
    (∀ c key h, (getService fuel c key h).2.maps = h.maps) ∧
    (∀ r c h, (resolveDep fuel r c h).2.maps = h.maps) ∧
    (∀ refs c h, (resolveRefs fuel refs c h).2.maps = h.maps) ∧
    (∀ f c h, (evalFactory fuel f c h).2.maps = h.maps) ∧
    (∀ ks c h, (resolveKeys fuel ks c h).2.maps = h.maps) := by
  intro fuel
  induction fuel with
  | zero =>
    refine ⟨?_, ?_, ?_, ?_, ?_⟩ <;> intros <;> rfl
  | succ n ih =>
    obtain ⟨ihg, ihd, ihr, ihf, ihk⟩ := ih
    refine ⟨?_, ?_, ?_, ?_, ?_⟩
    · intro c key h
      unfold getService
      cases hm : getMapProp h c.valuesRef key with
      | some r => exact ihd r c h
      | none =>
        cases hp : c.parent with
        | some p => exact ihg p key h
        | none => rfl
    · intro r c h
      unfold resolveDep
      cases hd : lookupDep h r with
      | none => rfl
      | some d =>
        cases d with
        | configured k f v =>
          cases hv : v.isUndef with
          | true =>
            simp only [hv, if_true]
            rcases hev : evalFactory n f c h with ⟨res, h₁⟩
            have hm₁ : h₁.maps = h.maps := by
              have := ihf f c h
              rw [hev] at this
              exact this
            cases res with
            | ok val => exact hm₁
            | error e => exact hm₁
          | false => simp only [hv, Bool.false_eq_true, if_false]
        | array k b es =>
          cases hl : lookupEntryList (updateDep h r (.array k true es)) es with
          | none => simp only [hl]; rfl
          | some refs =>
            simp only [hl]
            rcases hrr : resolveRefs n refs c (updateDep h r (.array k true es)) with ⟨res, h₂⟩
            have hm₂ : h₂.maps = h.maps := by
              have := ihr refs c (updateDep h r (.array k true es))
              rw [hrr] at this
              exact this
            cases res with
            | ok vs => exact hm₂
            | error e => exact hm₂
    · intro refs c h
      cases refs with
      | nil => rfl
      | cons r rest =>
        simp only [resolveRefs]
        generalize hrd : resolveDep n r c h = q₁
        have hm₁ : q₁.2.maps = h.maps := by
          rw [← hrd]
          exact ihd r c h
        rcases q₁ with ⟨res, h₁⟩
        cases res with
        | ok v =>
          dsimp only
          dsimp only at hm₁
          generalize hrr : resolveRefs n rest c h₁ = q₂
          have hm₂ : q₂.2.maps = h₁.maps := by
            rw [← hrr]
            exact ihr rest c h₁
          rcases q₂ with ⟨res₂, h₂⟩
          cases res₂ with
          | ok vs => simpa using hm₂.trans hm₁
          | error e => simpa using hm₂.trans hm₁
        | error e => simpa using hm₁
    · intro f c h
      cases f with
      | const v => rfl
      | fresh tag disp => rfl
      | throwErr m => rfl
      | getKey k => exact ihg c k { h with calls := .getKey k :: h.calls }
      | autoWire ctor =>
        by_cases hmeta : ctor.metadata.isEmpty
        · simp only [evalFactory, hmeta, if_true]
        · simp only [evalFactory, hmeta, Bool.false_eq_true, if_false]
          generalize hrk : resolveKeys n ((ctor.metadata.reverse).map (fun e => e.dependencyKey)) c
              { h with calls := Factory.autoWire ctor :: h.calls } = q₁
          have hm₁ : q₁.2.maps = h.maps := by
            rw [← hrk]
            exact ihk ((ctor.metadata.reverse).map (fun e => e.dependencyKey)) c
              { h with calls := Factory.autoWire ctor :: h.calls }
          rcases q₁ with ⟨res, h₁⟩
          cases res with
          | ok vs => simpa using hm₁
          | error e => simpa using hm₁
    · intro ks c h
      cases ks with
      | nil => rfl
      | cons k rest =>
        simp only [resolveKeys]
        generalize hgs : getService n c k h = q₁
        have hm₁ : q₁.2.maps = h.maps := by
          rw [← hgs]
          exact ihg c k h
        rcases q₁ with ⟨res, h₁⟩
        cases res with
        | ok v =>
          dsimp only
          dsimp only at hm₁
          generalize hrk : resolveKeys n rest c h₁ = q₂
          have hm₂ : q₂.2.maps = h₁.maps := by
            rw [← hrk]
            exact ihk rest c h₁
          rcases q₂ with ⟨res₂, h₂⟩
          cases res₂ with
          | ok vs => simpa using hm₂.trans hm₁
          | error e => simpa using hm₂.trans hm₁
        | error e => simpa using hm₁

theorem getService_preserves_maps (fuel : Nat) (c : ServiceContainer) (key : String)
    (h : Heap) : (getService fuel c key h).2.maps = h.maps :=
  (interp_preserves_maps fuel).1 c key h

theorem evalFactory_preserves_maps (fuel : Nat) (f : Factory) (c : ServiceContainer)
    (h : Heap) : (evalFactory fuel f c h).2.maps = h.maps :=
  (interp_preserves_maps fuel).2.2.2.1 f c h

theorem lookupEntryList_updateEntryList (h : Heap) (r : Nat) (l : List Nat) :
    lookupEntryList (updateEntryList h r l) r
      = (lookupEntryList h r).map (fun _ => l) := by
  simp only [lookupEntryList, updateEntryList]
  rw [find?_map_upd h.entryLists r (fun _ => (r, l)) (fun _ => rfl)]
  cases h.entryLists.find? (fun p => decide (p.1 = r)) <;> rfl

theorem lookupEntryList_updateEntryList_ne (h : Heap) (r r' : Nat) (l : List Nat)
    (hne : r' ≠ r) :
    lookupEntryList (updateEntryList h r l) r' = lookupEntryList h r' := by
  simp only [lookupEntryList, updateEntryList]
  rw [find?_map_upd_ne h.entryLists r r' (fun _ => (r, l)) (fun _ => rfl) hne]

theorem lookupEntryList_allocEntryList_fresh (h : Heap) (l : List Nat) :
    lookupEntryList (allocEntryList h l).2 h.nextRef = some l := by
  simp [lookupEntryList, allocEntryList]

theorem lookupEntryList_allocDep (h : Heap) (d : DepObj) (r : Nat) :
    lookupEntryList (allocDep h d).2 r = lookupEntryList h r := rfl

theorem lookupEntryList_updateMap (h : Heap) (r : Nat)
    (f : List (String × Nat) → List (String × Nat)) (es : Nat) :
    lookupEntryList (updateMap h r f) es = lookupEntryList h es := rfl

theorem lookupDep_allocEntryList (h : Heap) (l : List Nat) (r : Nat) :
    lookupDep (allocEntryList h l).2 r = lookupDep h r := rfl

theorem lookupMap_allocEntryList (h : Heap) (l : List Nat) (r : Nat) :
    lookupMap (allocEntryList h l).2 r = lookupMap h r := rfl

theorem lookupDep_updateEntryList (h : Heap) (r : Nat) (l : List Nat) (d : Nat) :
    lookupDep (updateEntryList h r l) d = lookupDep h d := rfl

theorem lookupMap_updateEntryList (h : Heap) (r : Nat) (l : List Nat) (m : Nat) :
    lookupMap (updateEntryList h r l) m = lookupMap h m := rfl

theorem getMapProp_congr_maps (h h' : Heap) (hm : h'.maps = h.maps) (r : Nat)
    (k : String) : getMapProp h' r k = getMapProp h r k := by
  simp [getMapProp, lookupMap, hm]

/-! ### Claim C8 -/

/-- C8: on a container with no parent, `get` of an absent key fails with
the `Unrecognized service` error naming the missing key; `get` of a
present key runs its record's `resolveValue` with this container; `get`
of an absent key with a parent delegates to the parent's `get`
(transitively, since the parent's `get` applies the same dispatch). -/
theorem c8_get_dispatch (n : Nat) (c : ServiceContainer) (key : String) (h : Heap) :
    (getMapProp h c.valuesRef key = none → c.parent = none →
      getService (n + 1) c key h = (.error ("Unrecognized service: " ++ key), h)) ∧
    (∀ r, getMapProp h c.valuesRef key = some r →
      getService (n + 1) c key h = resolveDep n r c h) ∧
    (∀ p, getMapProp h c.valuesRef key = none → c.parent = some p →
      getService (n + 1) c key h = getService n p key h) := by
  refine ⟨?_, ?_, ?_⟩
  · intro hm hp
    exact getService_missing n c key h hm hp
  · intro r hm
    exact getService_local n c key h r hm
  · intro p hm hp
    exact getService_parent n c key h p hm hp

def c8Heap : Heap := ⟨[(1, .configured "a" (.const (.num 7)) .undef)], [], [(0, [("a", 1)]), (2, [])], 3, 0, [], []⟩

def c8Root : ServiceContainer := .mk 0 none none

def c8Child : ServiceContainer := .mk 2 (some c8Root) (some "child")

theorem c8_get_dispatch_witness :
    (getService 3 c8Root "nonexistent" c8Heap
      = (.error ("Unrecognized service: " ++ "nonexistent"), c8Heap)) ∧
    (getService 3 c8Root "a" c8Heap = resolveDep 2 1 c8Root c8Heap) ∧
    (getService 3 c8Child "a" c8Heap = getService 2 c8Root "a" c8Heap) :=
  ⟨(c8_get_dispatch 2 c8Root "nonexistent" c8Heap).1 rfl rfl,
   (c8_get_dispatch 2 c8Root "a" c8Heap).2.1 1 rfl,
   (c8_get_dispatch 2 c8Child "a" c8Heap).2.2 c8Root rfl rfl⟩

/-! ### Claim C2 -/

/-- C2 (amended): a key bound to a factory whose evaluation succeeds
with a *defined* value resolves once and caches.  If the factory's
single evaluation succeeds with a defined value (and, as for every
factory that does not re-enter its own record, invokes the factory
exactly once and leaves the record untouched), then the first `get`
returns that value and caches it in the record, every later `get` on the
same container returns the same value with the heap completely unchanged
— so the factory runs exactly once over any number of `get` calls — and,
as a record-level invariant, `resolveValue` on any record with a defined
cached value returns it without touching the heap at all.  `undefined`,
however, is `resolveValue`'s not-resolved sentinel: a factory whose
evaluation succeeds with `undefined` (again leaving its own record
untouched) has that result assigned to the record's `value`, which
leaves the record exactly as unresolved as before, so the very next
resolution of the record takes the run-the-factory branch again — the
factory is re-invoked on every `get`, not invoked exactly once. -/
theorem c2_resolve_once_cached (h : Heap) (c : ServiceContainer) (key : String)
    (r : Nat) (f : Factory) (v : JsValue) (h₁ : Heap) (n m : Nat)
    (hmap : getMapProp h c.valuesRef key = some r)
    (hdep : lookupDep h r = some (.configured key f .undef))
    (heval : evalFactory n f c h = (.ok v, h₁))
    (hv : v.isUndef = false)
    (hpres : lookupDep h₁ r = lookupDep h r)
    (hcount : countCalls f h₁.calls = countCalls f h.calls + 1) :
    getService (n + 2) c key h = (.ok v, updateDep h₁ r (.configured key f v)) ∧
    getService (m + 2) c key (updateDep h₁ r (.configured key f v))
      = (.ok v, updateDep h₁ r (.configured key f v)) ∧
    countCalls f (updateDep h₁ r (.configured key f v)).calls
      = countCalls f h.calls + 1 ∧
    (∀ (h' : Heap) (r' : Nat) (k' : String) (f' : Factory) (v' : JsValue)
      (c' : ServiceContainer) (fl : Nat),
      lookupDep h' r' = some (.configured k' f' v') → v'.isUndef = false →
      resolveDep (fl + 1) r' c' h' = (.ok v', h')) ∧
    (∀ (h' : Heap) (r' : Nat) (k' : String) (f' : Factory)
      (c' : ServiceContainer) (fl fl₂ : Nat) (h'' : Heap),
      lookupDep h' r' = some (.configured k' f' .undef) →
      evalFactory fl f' c' h' = (.ok .undef, h'') →
      lookupDep h'' r' = lookupDep h' r' →
      resolveDep (fl + 1) r' c' h'
        = (.ok .undef, updateDep h'' r' (.configured k' f' .undef)) ∧
      resolveDep (fl₂ + 1) r' c' (updateDep h'' r' (.configured k' f' .undef))
        = (match evalFactory fl₂ f' c' (updateDep h'' r' (.configured k' f' .undef)) with
           | (.ok val, hx) => (.ok val, updateDep hx r' (.configured k' f' val))
           | (.error e, hx) => (.error e, hx))) := by
  have hmaps₁ : h₁.maps = h.maps := by
    have := evalFactory_preserves_maps n f c h
    rw [heval] at this
    exact this
  have hlook : lookupDep (updateDep h₁ r (.configured key f v)) r
      = some (.configured key f v) := by
    rw [lookupDep_updateDep, hpres, hdep]
    rfl
  refine ⟨?_, ?_, ?_, ?_, ?_⟩
  · rw [getService_local (n + 1) c key h r hmap,
      resolveDep_factoryRun n r c h key f hdep, heval]
  · have hmap₂ : getMapProp (updateDep h₁ r (.configured key f v)) c.valuesRef key
        = some r := by
      rw [getMapProp_updateDep]
      rw [getMapProp_congr_maps h h₁ hmaps₁]
      exact hmap
    rw [getService_local (m + 1) c key (updateDep h₁ r (.configured key f v)) r hmap₂]
    exact resolveDep_cached m r c _ key f v hlook hv
  · exact hcount
  · intro h' r' k' f' v' c' fl hdep' hv'
    exact resolveDep_cached fl r' c' h' k' f' v' hdep' hv'
  · intro h' r' k' f' c' fl fl₂ h'' hdep' heval' hpres'
    have hlook' : lookupDep (updateDep h'' r' (.configured k' f' .undef)) r'
        = some (.configured k' f' .undef) := by
      rw [lookupDep_updateDep, hpres', hdep']
      rfl
    refine ⟨?_, ?_⟩
    · rw [resolveDep_factoryRun fl r' c' h' k' f' hdep', heval']
    · exact resolveDep_factoryRun fl₂ r' c' _ k' f' hlook'

def c2Heap : Heap := ⟨[(1, .configured "k" (.fresh "f" false) .undef)], [], [(0, [("k", 1)])], 2, 0, [], []⟩

/-- A container with key `k` bound to a factory that returns `undefined`. -/
def c2uHeap : Heap := ⟨[(1, .configured "k" (.const .undef) .undef)], [], [(0, [("k", 1)])], 2, 0, [], []⟩

/-- `c2uHeap` after one `get("k")`: one factory call logged, record still unresolved. -/
def c2uHeapAfter1 : Heap := ⟨[(1, .configured "k" (.const .undef) .undef)], [], [(0, [("k", 1)])], 2, 0, [.const .undef], []⟩

/-- `c2uHeap` after two `get("k")` calls: two factory calls logged. -/
def c2uHeapAfter2 : Heap := ⟨[(1, .configured "k" (.const .undef) .undef)], [], [(0, [("k", 1)])], 2, 0, [.const .undef, .const .undef], []⟩

def c2Container : ServiceContainer := .mk 0 none none

def c2Heap₁ : Heap := ⟨[(1, .configured "k" (.fresh "f" false) .undef)], [], [(0, [("k", 1)])], 2, 1, [.fresh "f" false], []⟩

theorem c2_resolve_once_cached_witness :
    getService 3 c2Container "k" c2Heap
      = (.ok (.inst 0 false), updateDep c2Heap₁ 1 (.configured "k" (.fresh "f" false) (.inst 0 false))) ∧
    getService 7 c2Container "k"
        (updateDep c2Heap₁ 1 (.configured "k" (.fresh "f" false) (.inst 0 false)))
      = (.ok (.inst 0 false), updateDep c2Heap₁ 1 (.configured "k" (.fresh "f" false) (.inst 0 false))) ∧
    countCalls (.fresh "f" false) (updateDep c2Heap₁ 1 (.configured "k" (.fresh "f" false) (.inst 0 false))).calls
      = countCalls (.fresh "f" false) c2Heap.calls + 1 ∧
    (∀ (h' : Heap) (r' : Nat) (k' : String) (f' : Factory) (v' : JsValue)
      (c' : ServiceContainer) (fl : Nat),
      lookupDep h' r' = some (.configured k' f' v') → v'.isUndef = false →
      resolveDep (fl + 1) r' c' h' = (.ok v', h')) ∧
    (∀ (h' : Heap) (r' : Nat) (k' : String) (f' : Factory)
      (c' : ServiceContainer) (fl fl₂ : Nat) (h'' : Heap),
      lookupDep h' r' = some (.configured k' f' .undef) →
      evalFactory fl f' c' h' = (.ok .undef, h'') →
      lookupDep h'' r' = lookupDep h' r' →
      resolveDep (fl + 1) r' c' h'
        = (.ok .undef, updateDep h'' r' (.configured k' f' .undef)) ∧
      resolveDep (fl₂ + 1) r' c' (updateDep h'' r' (.configured k' f' .undef))
        = (match evalFactory fl₂ f' c' (updateDep h'' r' (.configured k' f' .undef)) with
           | (.ok val, hx) => (.ok val, updateDep hx r' (.configured k' f' val))
           | (.error e, hx) => (.error e, hx))) :=
  c2_resolve_once_cached c2Heap c2Container "k" 1 (.fresh "f" false) (.inst 0 false)
    c2Heap₁ 1 5 rfl rfl rfl rfl rfl rfl

/-- C2 counterexample: with key `k` bound to a factory that returns
`undefined`, the first `get("k")` runs the factory and assigns the
result, yet the record is still not resolved afterwards (`undefined` is
`resolveValue`'s not-resolved sentinel), so the second `get("k")` on the
resulting heap runs the factory again: after two `get` calls the factory
has been invoked twice, refuting that `get(K)` called N>1 times invokes
the factory exactly once and that a set cached value is never
re-computed. -/
theorem c2_counterexample :
    getService 3 c2Container "k" c2uHeap = (.ok .undef, c2uHeapAfter1) ∧
    depIsResolved c2uHeapAfter1 1 = false ∧
    getService 3 c2Container "k" c2uHeapAfter1 = (.ok .undef, c2uHeapAfter2) ∧
    countCalls (.const .undef) c2uHeapAfter2.calls = 2 := by
  refine ⟨rfl, rfl, rfl, rfl⟩

/-! ### Claim C9 -/

theorem getProp_foldl_setProp_notmem (l : List (String × Nat)) (m : List (String × Nat))
    (k : String) (hk : ∀ p ∈ l, p.1 ≠ k) :
    getProp (l.foldl (fun acc p => setProp acc p.1 p.2) m) k = getProp m k := by
  induction l generalizing m with
  | nil => rfl
  | cons p rest ih =>
    rw [List.foldl_cons]
    rw [ih _ (fun q hq => hk q (List.mem_cons_of_mem p hq))]
    exact getProp_setProp_ne m p.1 k p.2
      (fun hh => hk p (List.mem_cons_self p rest) hh.symm)

theorem getProp_foldl_setProp_mem (l : List (String × Nat)) (m : List (String × Nat))
    (k : String) (r : Nat) (hnd : (l.map Prod.fst).Nodup) (hmem : (k, r) ∈ l) :
    getProp (l.foldl (fun acc p => setProp acc p.1 p.2) m) k = some r := by
  induction l generalizing m with
  | nil => simp at hmem
  | cons p rest ih =>
    rw [List.foldl_cons]
    rcases List.mem_cons.mp hmem with heq | hmem₂
    · subst heq
      rw [List.map_cons, List.nodup_cons] at hnd
      have hnd1 : k ∉ rest.map Prod.fst := by simpa using hnd.1
      have hk : ∀ q ∈ rest, q.1 ≠ k := by
        intro q hq hqk
        apply hnd1
        rw [← hqk]
        exact List.mem_map_of_mem Prod.fst hq
      rw [getProp_foldl_setProp_notmem rest _ k hk]
      exact getProp_setProp_self m k r
    · rw [List.map_cons, List.nodup_cons] at hnd
      exact ih (setProp m p.1 p.2) hnd.2 hmem₂

/-- C9: after importing collection Y into collection X, a key K defined
in Y maps to Y's record in X's new mapping (incoming record wins on
collision), the container built from X shares that mapping, and its
`get(K)` dispatches to resolving Y's record. -/
theorem c9_import_incoming_wins (h : Heap) (x y : ServiceCollection) (k : String)
    (r : Nat) (mx my : List (String × Nat)) (n : Nat)
    (hx : lookupMap h x.valuesRef = some mx)
    (hy : lookupMap h y.valuesRef = some my)
    (hnd : (my.map Prod.fst).Nodup)
    (hmem : (k, r) ∈ my) :
    getMapProp (ServiceCollection.mergeImport h x y).2
        (ServiceCollection.mergeImport h x y).1.valuesRef k = some r ∧
    (ServiceCollection.buildContainer (ServiceCollection.mergeImport h x y).1).valuesRef
      = (ServiceCollection.mergeImport h x y).1.valuesRef ∧
    getService (n + 1)
        (ServiceCollection.buildContainer (ServiceCollection.mergeImport h x y).1) k
        (ServiceCollection.mergeImport h x y).2
      = resolveDep n r
          (ServiceCollection.buildContainer (ServiceCollection.mergeImport h x y).1)
          (ServiceCollection.mergeImport h x y).2 := by
  have hmerge : ServiceCollection.mergeImport h x y
      = (⟨h.nextRef⟩, (allocMap h (my.foldl (fun acc p => setProp acc p.1 p.2) mx)).2) := by
    simp only [ServiceCollection.mergeImport, hx, hy, Option.getD_some]
    rfl
  have hprop : getMapProp (ServiceCollection.mergeImport h x y).2
      (ServiceCollection.mergeImport h x y).1.valuesRef k = some r := by
    rw [hmerge]
    show getMapProp (allocMap h (my.foldl (fun acc p => setProp acc p.1 p.2) mx)).2
        h.nextRef k = some r
    unfold getMapProp
    rw [lookupMap_allocMap_fresh]
    exact getProp_foldl_setProp_mem my mx k r hnd hmem
  refine ⟨hprop, rfl, ?_⟩
  exact getService_local n _ k _ r hprop

def c9Heap : Heap :=
  ⟨[(2, .configured "k" (.const (.str "X")) (.str "X")),
    (3, .configured "k" (.const (.str "Y")) (.str "Y"))], [],
   [(0, [("k", 2)]), (1, [("k", 3)])], 4, 0, [], []⟩

theorem c9_import_incoming_wins_witness :
    getMapProp (ServiceCollection.mergeImport c9Heap ⟨0⟩ ⟨1⟩).2
        (ServiceCollection.mergeImport c9Heap ⟨0⟩ ⟨1⟩).1.valuesRef "k" = some 3 ∧
    (ServiceCollection.buildContainer (ServiceCollection.mergeImport c9Heap ⟨0⟩ ⟨1⟩).1).valuesRef
      = (ServiceCollection.mergeImport c9Heap ⟨0⟩ ⟨1⟩).1.valuesRef ∧
    getService 3 (ServiceCollection.buildContainer (ServiceCollection.mergeImport c9Heap ⟨0⟩ ⟨1⟩).1)
        "k" (ServiceCollection.mergeImport c9Heap ⟨0⟩ ⟨1⟩).2
      = resolveDep 2 3
          (ServiceCollection.buildContainer (ServiceCollection.mergeImport c9Heap ⟨0⟩ ⟨1⟩).1)
          (ServiceCollection.mergeImport c9Heap ⟨0⟩ ⟨1⟩).2 :=
  c9_import_incoming_wins c9Heap ⟨0⟩ ⟨1⟩ "k" 3 [("k", 2)] [("k", 3)] 2
    rfl rfl (by simp) (by simp)

/-! ### Claim C10 -/

/-- C10: `register` stores a fresh single record under the key,
replacing whatever the key mapped to, and keeps the mapping's keys
unique; `add`/`addDependency` on an existing key dispatch to an append
on that key's record rather than storing a new one; appending to an
`ArrayDependency` extends its entry array in place with a new entry
under the synthetic key `<key>-<position>`, leaving the array record
under its key; `add` on an absent key first creates and stores a fresh
empty `ArrayDependency` and then appends to it. -/
theorem c10_register_replaces_add_appends (h : Heap) (sc : ServiceCollection)
    (key : String) (fv : FactVal) (clazz : Ctor) (m : List (String × Nat))
    (hm : lookupMap h sc.valuesRef = some m) :
    (getMapProp (ServiceCollection.register h sc key fv) sc.valuesRef key
        = some h.nextRef ∧
      lookupDep (ServiceCollection.register h sc key fv) h.nextRef
        = some (newConfiguredDependency key fv) ∧
      lookupMap (ServiceCollection.register h sc key fv) sc.valuesRef
        = some (setProp m key h.nextRef) ∧
      ((m.map Prod.fst).Nodup → ((setProp m key h.nextRef).map Prod.fst).Nodup)) ∧
    (∀ r, getMapProp h sc.valuesRef key = some r →
      ServiceCollection.add h sc key clazz
        = ArrayDependency.registerEntry h r (.fact (.autoWire clazz)) ∧
      ServiceCollection.addDependency h sc key fv
        = ArrayDependency.registerEntry h r fv) ∧
    (∀ r k₀ b es refs, lookupDep h r = some (.array k₀ b es) →
      lookupEntryList h es = some refs →
      ArrayDependency.registerEntry h r fv
        = .ok (updateEntryList
            (allocDep h (newConfiguredDependency (k₀ ++ "-" ++ toString refs.length) fv)).2
            es (refs ++ [h.nextRef])) ∧
      lookupEntryList
          (updateEntryList
            (allocDep h (newConfiguredDependency (k₀ ++ "-" ++ toString refs.length) fv)).2
            es (refs ++ [h.nextRef])) es = some (refs ++ [h.nextRef]) ∧
      lookupDep
          (updateEntryList
            (allocDep h (newConfiguredDependency (k₀ ++ "-" ++ toString refs.length) fv)).2
            es (refs ++ [h.nextRef])) h.nextRef
        = some (newConfiguredDependency (k₀ ++ "-" ++ toString refs.length) fv) ∧
      (r < h.nextRef →
        lookupDep
            (updateEntryList
              (allocDep h (newConfiguredDependency (k₀ ++ "-" ++ toString refs.length) fv)).2
              es (refs ++ [h.nextRef])) r = some (.array k₀ b es)) ∧
      getMapProp
          (updateEntryList
            (allocDep h (newConfiguredDependency (k₀ ++ "-" ++ toString refs.length) fv)).2
            es (refs ++ [h.nextRef])) sc.valuesRef key
        = getMapProp h sc.valuesRef key) ∧
    (getMapProp h sc.valuesRef key = none →
      ServiceCollection.add h sc key clazz
        = ArrayDependency.registerEntry
            (updateMap (allocDep (allocEntryList h []).2 (.array key false h.nextRef)).2
              sc.valuesRef (fun mm => setProp mm key (h.nextRef + 1)))
            (h.nextRef + 1) (.fact (.autoWire clazz)) ∧
      getMapProp
          (updateMap (allocDep (allocEntryList h []).2 (.array key false h.nextRef)).2
            sc.valuesRef (fun mm => setProp mm key (h.nextRef + 1)))
          sc.valuesRef key = some (h.nextRef + 1) ∧
      lookupDep
          (updateMap (allocDep (allocEntryList h []).2 (.array key false h.nextRef)).2
            sc.valuesRef (fun mm => setProp mm key (h.nextRef + 1)))
          (h.nextRef + 1) = some (.array key false h.nextRef) ∧
      lookupEntryList
          (updateMap (allocDep (allocEntryList h []).2 (.array key false h.nextRef)).2
            sc.valuesRef (fun mm => setProp mm key (h.nextRef + 1)))
          h.nextRef = some []) := by
  have hm1 : lookupMap (ServiceCollection.register h sc key fv) sc.valuesRef
      = some (setProp m key h.nextRef) := by
    unfold ServiceCollection.register
    rw [lookupMap_updateMap, lookupMap_allocDep, hm]
    rfl
  refine ⟨⟨?_, ?_, hm1, ?_⟩, ?_, ?_, ?_⟩
  · unfold getMapProp
    rw [hm1]
    exact getProp_setProp_self m key h.nextRef
  · unfold ServiceCollection.register
    rw [lookupDep_updateMap]
    exact lookupDep_allocDep_fresh h _
  · intro hnd
    exact setProp_nodup m key h.nextRef hnd
  · intro r hr
    constructor
    · unfold ServiceCollection.add
      rw [hr]
    · unfold ServiceCollection.addDependency
      rw [hr]
  · intro r k₀ b es refs hdep hes
    refine ⟨?_, ?_, ?_, ?_, ?_⟩
    · unfold ArrayDependency.registerEntry
      simp only [hdep]
      simp only [hes]
      rfl
    · rw [lookupEntryList_updateEntryList, lookupEntryList_allocDep, hes]
      rfl
    · rw [lookupDep_updateEntryList]
      exact lookupDep_allocDep_fresh h _
    · intro hrlt
      rw [lookupDep_updateEntryList,
        lookupDep_allocDep_ne h _ r (Nat.ne_of_lt hrlt), hdep]
    · rfl
  · intro hnone
    refine ⟨?_, ?_, ?_, ?_⟩
    · unfold ServiceCollection.add
      simp only [hnone]
      rfl
    · unfold getMapProp
      rw [lookupMap_updateMap, lookupMap_allocDep, lookupMap_allocEntryList, hm]
      exact getProp_setProp_self m key (h.nextRef + 1)
    · rw [lookupDep_updateMap]
      exact lookupDep_allocDep_fresh (allocEntryList h []).2 _
    · rw [lookupEntryList_updateMap, lookupEntryList_allocDep]
      exact lookupEntryList_allocEntryList_fresh h []

def c10Heap : Heap :=
  ⟨[(2, .array "m" false 1)], [(1, [])], [(0, [("m", 2)])], 3, 0, [], []⟩

def c10Ctor : Ctor := ⟨"W", []⟩

theorem c10_register_replaces_add_appends_witness :
    (getMapProp (ServiceCollection.register c10Heap ⟨0⟩ "m" (.val (.num 9))) 0 "m"
        = some 3 ∧
      lookupDep (ServiceCollection.register c10Heap ⟨0⟩ "m" (.val (.num 9))) 3
        = some (newConfiguredDependency "m" (.val (.num 9))) ∧
      lookupMap (ServiceCollection.register c10Heap ⟨0⟩ "m" (.val (.num 9))) 0
        = some (setProp [("m", 2)] "m" 3) ∧
      (((([("m", 2)] : List (String × Nat))).map Prod.fst).Nodup →
        ((setProp [("m", 2)] "m" 3).map Prod.fst).Nodup)) ∧
    (∀ r, getMapProp c10Heap 0 "m" = some r →
      ServiceCollection.add c10Heap ⟨0⟩ "m" c10Ctor
        = ArrayDependency.registerEntry c10Heap r (.fact (.autoWire c10Ctor)) ∧
      ServiceCollection.addDependency c10Heap ⟨0⟩ "m" (.val (.num 9))
        = ArrayDependency.registerEntry c10Heap r (.val (.num 9))) ∧
    (∀ r k₀ b es refs, lookupDep c10Heap r = some (.array k₀ b es) →
      lookupEntryList c10Heap es = some refs →
      ArrayDependency.registerEntry c10Heap r (.val (.num 9))
        = .ok (updateEntryList
            (allocDep c10Heap (newConfiguredDependency (k₀ ++ "-" ++ toString refs.length) (.val (.num 9)))).2
            es (refs ++ [3])) ∧
      lookupEntryList
          (updateEntryList
            (allocDep c10Heap (newConfiguredDependency (k₀ ++ "-" ++ toString refs.length) (.val (.num 9)))).2
            es (refs ++ [3])) es = some (refs ++ [3]) ∧
      lookupDep
          (updateEntryList
            (allocDep c10Heap (newConfiguredDependency (k₀ ++ "-" ++ toString refs.length) (.val (.num 9)))).2
            es (refs ++ [3])) 3
        = some (newConfiguredDependency (k₀ ++ "-" ++ toString refs.length) (.val (.num 9))) ∧
      (r < 3 →
        lookupDep
            (updateEntryList
              (allocDep c10Heap (newConfiguredDependency (k₀ ++ "-" ++ toString refs.length) (.val (.num 9)))).2
              es (refs ++ [3])) r = some (.array k₀ b es)) ∧
      getMapProp
          (updateEntryList
            (allocDep c10Heap (newConfiguredDependency (k₀ ++ "-" ++ toString refs.length) (.val (.num 9)))).2
            es (refs ++ [3])) 0 "m"
        = getMapProp c10Heap 0 "m") ∧
    (getMapProp c10Heap 0 "m" = none →
      ServiceCollection.add c10Heap ⟨0⟩ "m" c10Ctor
        = ArrayDependency.registerEntry
            (updateMap (allocDep (allocEntryList c10Heap []).2 (.array "m" false 3)).2
              0 (fun mm => setProp mm "m" 4))
            4 (.fact (.autoWire c10Ctor)) ∧
      getMapProp
          (updateMap (allocDep (allocEntryList c10Heap []).2 (.array "m" false 3)).2
            0 (fun mm => setProp mm "m" 4))
          0 "m" = some 4 ∧
      lookupDep
          (updateMap (allocDep (allocEntryList c10Heap []).2 (.array "m" false 3)).2
            0 (fun mm => setProp mm "m" 4))
          4 = some (.array "m" false 3) ∧
      lookupEntryList
          (updateMap (allocDep (allocEntryList c10Heap []).2 (.array "m" false 3)).2
            0 (fun mm => setProp mm "m" 4))
          3 = some []) :=
  c10_register_replaces_add_appends c10Heap ⟨0⟩ "m" (.val (.num 9)) c10Ctor [("m", 2)] rfl

/-! ### Claim C3 -/

def c3AscCtor : Ctor := ⟨"M", [⟨"a", 0, none⟩, ⟨"b", 1, none⟩]⟩

def c3DescCtor : Ctor := ⟨"M", [⟨"b", 1, none⟩, ⟨"a", 0, none⟩]⟩

def c3Heap : Heap :=
  ⟨[(1, .configured "a" (.const (.str "A")) (.str "A")),
    (2, .configured "b" (.const (.str "B")) (.str "B"))], [],
   [(0, [("a", 1), ("b", 2)])], 3, 0, [], []⟩

def c3Container : ServiceContainer := .mk 0 none none

def c3HeapAsc : Heap :=
  ⟨[(1, .configured "a" (.const (.str "A")) (.str "A")),
    (2, .configured "b" (.const (.str "B")) (.str "B"))], [],
   [(0, [("a", 1), ("b", 2)])], 3, 1, [.autoWire c3AscCtor], []⟩

/-- C3 fails on the code: with metadata recorded in ascending
parameter-index order (entry for parameter 0 first), the auto-wire
factory reverses the list instead of sorting it, so the constructor
receives the value of key "b" (the entry declaring parameter index 1)
at position 0 and the value of key "a" (the entry declaring parameter
index 0) at position 1 — not each value at its entry's declared
parameter position. -/
theorem c3_counterexample :
    evalFactory 5 (.autoWire c3AscCtor) c3Container c3Heap
      = (.ok (.ctorInst 0 "M" [.str "B", .str "A"]), c3HeapAsc) ∧
    JsValue.str "B" ≠ JsValue.str "A" := by
  constructor
  · rfl
  · simp

/-- C3 amended: the auto-wire factory instantiates with no arguments on
empty metadata; on non-empty metadata it copies and reverses the
metadata list, resolves each entry's `dependencyKey` from the given
container in that reversed order, and passes the results positionally
(no sort by parameter index).  When the metadata is recorded in
descending parameter-index order — as the `@inject` decorator records
it — the reversed list's i-th entry declares parameter index i, so each
resolved value does land at its entry's parameter position. -/
theorem c3_autoWire_reverses (ctor : Ctor) (c : ServiceContainer) (h : Heap) (n : Nat) :
    (ctor.metadata = [] →
      evalFactory (n + 1) (.autoWire ctor) c h
        = (.ok (.ctorInst h.nextInst ctor.name []),
           { h with calls := .autoWire ctor :: h.calls, nextInst := h.nextInst + 1 })) ∧
    (∀ vs h₁, ctor.metadata ≠ [] →
      resolveKeys n ((ctor.metadata.reverse).map (fun e => e.dependencyKey)) c
          { h with calls := .autoWire ctor :: h.calls } = (.ok vs, h₁) →
      evalFactory (n + 1) (.autoWire ctor) c h
        = (.ok (.ctorInst h₁.nextInst ctor.name vs),
           { h₁ with nextInst := h₁.nextInst + 1 })) ∧
    (ctor.metadata.map (fun e => e.parameterIndex)
        = (List.range ctor.metadata.length).reverse →
      ∀ i e, (ctor.metadata.reverse).get? i = some e → e.parameterIndex = i) := by
  refine ⟨?_, ?_, ?_⟩
  · intro hemp
    unfold evalFactory
    rw [hemp]
    rfl
  · intro vs h₁ hne hrk
    have hb : ctor.metadata.isEmpty = false := by
      cases hmd : ctor.metadata with
      | nil => exact absurd hmd hne
      | cons a l => rfl
    unfold evalFactory
    simp only [hb, Bool.false_eq_true, if_false]
    rw [hrk]
  · intro hdesc i e hie
    have hrev : (ctor.metadata.reverse).map (fun e => e.parameterIndex)
        = List.range ctor.metadata.length := by
      rw [List.map_reverse, hdesc, List.reverse_reverse]
    have hlen : i < ctor.metadata.reverse.length := by
      by_contra hcon
      rw [List.get?_eq_none.mpr (Nat.le_of_not_lt hcon)] at hie
      exact Option.noConfusion hie
    have h1 : ((ctor.metadata.reverse).map (fun e => e.parameterIndex)).get? i
        = some e.parameterIndex := by
      rw [List.get?_eq_getElem?, List.getElem?_map, ← List.get?_eq_getElem?, hie]
      rfl
    rw [hrev] at h1
    have h2 : (List.range ctor.metadata.length).get? i = some i := by
      rw [List.get?_eq_getElem?]
      apply List.getElem?_range
      simpa using hlen
    rw [h2] at h1
    exact (Option.some.injEq _ _ ▸ h1).symm

def c3HeapDesc : Heap :=
  ⟨[(1, .configured "a" (.const (.str "A")) (.str "A")),
    (2, .configured "b" (.const (.str "B")) (.str "B"))], [],
   [(0, [("a", 1), ("b", 2)])], 3, 1, [.autoWire c3DescCtor], []⟩

def c3EmptyCtor : Ctor := ⟨"W", []⟩

theorem c3_autoWire_reverses_witness :
    (evalFactory 5 (.autoWire c3EmptyCtor) c3Container c3Heap
      = (.ok (.ctorInst 0 "W" []),
         { c3Heap with calls := [.autoWire c3EmptyCtor], nextInst := 1 })) ∧
    (evalFactory 5 (.autoWire c3DescCtor) c3Container c3Heap
      = (.ok (.ctorInst 0 "M" [.str "A", .str "B"]), c3HeapDesc)) ∧
    (⟨"a", 0, none⟩ : MetaEntry).parameterIndex = 0 ∧
    (⟨"b", 1, none⟩ : MetaEntry).parameterIndex = 1 :=
  ⟨(c3_autoWire_reverses c3EmptyCtor c3Container c3Heap 4).1 rfl,
   (c3_autoWire_reverses c3DescCtor c3Container c3Heap 4).2.1
     [.str "A", .str "B"]
     ⟨[(1, .configured "a" (.const (.str "A")) (.str "A")),
       (2, .configured "b" (.const (.str "B")) (.str "B"))], [],
      [(0, [("a", 1), ("b", 2)])], 3, 0, [.autoWire c3DescCtor], []⟩
     (by simp [c3DescCtor]) rfl,
   (c3_autoWire_reverses c3DescCtor c3Container c3Heap 4).2.2 rfl 0 ⟨"a", 0, none⟩ rfl,
   (c3_autoWire_reverses c3DescCtor c3Container c3Heap 4).2.2 rfl 1 ⟨"b", 1, none⟩ rfl⟩

/-! ### Claim C4 -/

def c4Heap : Heap :=
  ⟨[(2, .configured "xs-0" (.throwErr "boom") .undef), (3, .array "xs" false 1)],
   [(1, [2])], [(0, [("xs", 3)])], 4, 0, [], []⟩

def c4Container : ServiceContainer := .mk 0 none none

def c4HeapAfter : Heap :=
  ⟨[(2, .configured "xs-0" (.throwErr "boom") .undef), (3, .array "xs" true 1)],
   [(1, [2])], [(0, [("xs", 3)])], 4, 0, [.throwErr "boom"], []⟩

/-- C4 fails on the code for Multi-binding Records: resolving an
`ArrayDependency` whose single entry's factory throws propagates the
error unchanged, but the record has already set `resolved = true` before
resolving its entries, so `isResolved()` is `true` afterwards — the
claim says it must remain `false`.  (The entry itself caches nothing.) -/
theorem c4_counterexample :
    getService 5 c4Container "xs" c4Heap = (.error "boom", c4HeapAfter) ∧
    depIsResolved c4HeapAfter 3 = true ∧
    lookupDep c4HeapAfter 2
      = some (.configured "xs-0" (.throwErr "boom") .undef) := by
  refine ⟨rfl, rfl, rfl⟩

/-- C4 amended: an error thrown during resolution propagates to the
caller unchanged for both record kinds.  A single Dependency Record
whose factory throws (without itself writing this record) stays
unresolved with nothing cached, and a later `resolveValue` runs the
factory again.  A Multi-binding Record, however, sets its `resolved`
flag before resolving its entries, so after a throwing resolution
`isResolved()` reports `true`. -/
theorem c4_error_propagation (h : Heap) (c : ServiceContainer) (r n m : Nat)
    (k : String) (f : Factory) (e : String) (h₁ : Heap) :
    (lookupDep h r = some (.configured k f .undef) →
     evalFactory n f c h = (.error e, h₁) →
     lookupDep h₁ r = lookupDep h r →
      resolveDep (n + 1) r c h = (.error e, h₁) ∧
      depIsResolved h₁ r = false ∧
      resolveDep (m + 1) r c h₁
        = match evalFactory m f c h₁ with
          | (.ok val, h₂) => (.ok val, updateDep h₂ r (.configured k f val))
          | (.error e₂, h₂) => (.error e₂, h₂)) ∧
    (∀ (b : Bool) (es : Nat) (refs : List Nat) (h₂ : Heap),
      lookupDep h r = some (.array k b es) →
      lookupEntryList (updateDep h r (.array k true es)) es = some refs →
      resolveRefs n refs c (updateDep h r (.array k true es)) = (.error e, h₂) →
      lookupDep h₂ r = lookupDep (updateDep h r (.array k true es)) r →
      resolveDep (n + 1) r c h = (.error e, h₂) ∧
      depIsResolved h₂ r = true) := by
  constructor
  · intro hdep heval hpres
    refine ⟨?_, ?_, ?_⟩
    · rw [resolveDep_factoryRun n r c h k f hdep, heval]
    · unfold depIsResolved
      rw [hpres, hdep]
      rfl
    · exact resolveDep_factoryRun m r c h₁ k f (by rw [hpres]; exact hdep)
  · intro b es refs h₂ hdep hes hrr hpres
    constructor
    · unfold resolveDep
      simp only [hdep]
      simp only [hes]
      rw [hrr]
    · unfold depIsResolved
      rw [hpres, lookupDep_updateDep, hdep]
      rfl

theorem c4_error_propagation_witness :
    (resolveDep 2 2 c4Container c4Heap
        = (.error "boom", { c4Heap with calls := [.throwErr "boom"] }) ∧
      depIsResolved { c4Heap with calls := [.throwErr "boom"] } 2 = false ∧
      resolveDep 4 2 c4Container { c4Heap with calls := [.throwErr "boom"] }
        = match evalFactory 3 (.throwErr "boom") c4Container
              { c4Heap with calls := [.throwErr "boom"] } with
          | (.ok val, h₂) =>
            (.ok val, updateDep h₂ 2 (.configured "xs-0" (.throwErr "boom") val))
          | (.error e₂, h₂) => (.error e₂, h₂)) ∧
    (resolveDep 4 3 c4Container c4Heap = (.error "boom", c4HeapAfter) ∧
      depIsResolved c4HeapAfter 3 = true) :=
  ⟨(c4_error_propagation c4Heap c4Container 2 1 3 "xs-0" (.throwErr "boom") "boom"
      { c4Heap with calls := [.throwErr "boom"] }).1 rfl rfl rfl,
   (c4_error_propagation c4Heap c4Container 3 3 0 "xs" (.throwErr "boom") "boom"
      { c4Heap with calls := [.throwErr "boom"] }).2 false 1 [2] c4HeapAfter
      rfl rfl rfl rfl⟩

/-! ### Claim C5 -/

/-- Record shapes on which `destroy` does nothing: a missing record, an
`ArrayDependency` (it has no `value` property), and a
`ConfiguredDependency` whose cached value is falsy. -/
def destroySkips : Option DepObj → Bool
  | some (.configured _ _ v) => !v.truthy
  | some (.array _ _ _) => true
  | none => true

theorem hookHeap_deps (h : Heap) (v : JsValue) : (hookHeap h v).deps = h.deps := by
  cases v with
  | inst id disp => cases disp <;> rfl
  | undef => rfl
  | null => rfl
  | bool b => rfl
  | num n => rfl
  | str s => rfl
  | ctorInst id nm args => rfl
  | arr elems => rfl

theorem hookHeap_maps (h : Heap) (v : JsValue) : (hookHeap h v).maps = h.maps := by
  cases v with
  | inst id disp => cases disp <;> rfl
  | undef => rfl
  | null => rfl
  | bool b => rfl
  | num n => rfl
  | str s => rfl
  | ctorInst id nm args => rfl
  | arr elems => rfl

theorem lookupDep_congr_deps (h h' : Heap) (hd : h'.deps = h.deps) (r : Nat) :
    lookupDep h' r = lookupDep h r := by
  simp [lookupDep, hd]

/-- `destroy` on a key whose record holds a truthy cached value: invoke
the hook if the value exposes one, then clear the cached value. -/
theorem destroy_clears (h : Heap) (c : ServiceContainer) (k : String) (r : Nat)
    (k₀ : String) (f : Factory) (v : JsValue)
    (hm : getMapProp h c.valuesRef k = some r)
    (hd : lookupDep h r = some (.configured k₀ f v)) (hv : v.truthy = true) :
    ServiceContainer.destroy h c k
      = updateDep (hookHeap h v) r (.configured k₀ f .undef) := by
  unfold ServiceContainer.destroy
  simp only [hm]
  simp only [hd]
  rw [if_pos hv]

/-- `destroy` on a key whose record `destroySkips` is a no-op. -/
theorem destroy_of_skips (h : Heap) (c : ServiceContainer) (k : String)
    (hs : ∀ r, getMapProp h c.valuesRef k = some r →
      destroySkips (lookupDep h r) = true) :
    ServiceContainer.destroy h c k = h := by
  unfold ServiceContainer.destroy
  cases hm : getMapProp h c.valuesRef k with
  | none => rfl
  | some r =>
    dsimp only
    cases hd : lookupDep h r with
    | none => rfl
    | some d =>
      cases d with
      | configured k₀ f v =>
        dsimp only
        have hsk := hs r hm
        rw [hd] at hsk
        have hv : v.truthy = false := by simpa [destroySkips] using hsk
        rw [if_neg (by rw [hv]; exact Bool.false_ne_true)]
      | array k₀ b es => rfl

theorem destroy_maps (h : Heap) (c : ServiceContainer) (k : String) :
    (ServiceContainer.destroy h c k).maps = h.maps := by
  by_cases hcase : ∀ r, getMapProp h c.valuesRef k = some r →
      destroySkips (lookupDep h r) = true
  · rw [destroy_of_skips h c k hcase]
  · push_neg at hcase
    obtain ⟨r, hm, hns⟩ := hcase
    cases hd : lookupDep h r with
    | none => rw [hd] at hns; exact absurd rfl hns
    | some d =>
      cases d with
      | configured k₀ f v =>
        rw [hd] at hns
        have hv : v.truthy = true := by simpa [destroySkips] using hns
        rw [destroy_clears h c k r k₀ f v hm hd hv]
        show (hookHeap h v).maps = h.maps
        exact hookHeap_maps h v
      | array k₀ b es => rw [hd] at hns; exact absurd rfl hns

theorem getMapProp_destroy (h : Heap) (c : ServiceContainer) (k : String) (m : Nat)
    (k₂ : String) :
    getMapProp (ServiceContainer.destroy h c k) m k₂ = getMapProp h m k₂ :=
  getMapProp_congr_maps h _ (destroy_maps h c k) m k₂

theorem destroySkips_destroy (h : Heap) (c : ServiceContainer) (k : String) (r' : Nat)
    (hs : destroySkips (lookupDep h r') = true) :
    destroySkips (lookupDep (ServiceContainer.destroy h c k) r') = true := by
  by_cases hcase : ∀ r, getMapProp h c.valuesRef k = some r →
      destroySkips (lookupDep h r) = true
  · rw [destroy_of_skips h c k hcase]
    exact hs
  · push_neg at hcase
    obtain ⟨r, hm, hns⟩ := hcase
    cases hd : lookupDep h r with
    | none => rw [hd] at hns; exact absurd rfl hns
    | some d =>
      cases d with
      | configured k₀ f v =>
        rw [hd] at hns
        have hv : v.truthy = true := by simpa [destroySkips] using hns
        rw [destroy_clears h c k r k₀ f v hm hd hv]
        by_cases hr : r' = r
        · subst hr
          rw [lookupDep_updateDep, lookupDep_congr_deps h (hookHeap h v) (hookHeap_deps h v), hd]
          rfl
        · rw [lookupDep_updateDep_ne _ _ _ _ hr,
            lookupDep_congr_deps h (hookHeap h v) (hookHeap_deps h v)]
          exact hs
      | array k₀ b es => rw [hd] at hns; exact absurd rfl hns

theorem destroySkips_after_self (h : Heap) (c : ServiceContainer) (k : String) :
    ∀ r, getMapProp (ServiceContainer.destroy h c k) c.valuesRef k = some r →
      destroySkips (lookupDep (ServiceContainer.destroy h c k) r) = true := by
  intro r hr
  rw [getMapProp_destroy] at hr
  cases hd : lookupDep h r with
  | none =>
    have hsk : ∀ r₂, getMapProp h c.valuesRef k = some r₂ →
        destroySkips (lookupDep h r₂) = true := by
      intro r₂ hr₂
      rw [hr] at hr₂
      have : r = r₂ := Option.some.inj hr₂
      rw [← this, hd]
      rfl
    rw [destroy_of_skips h c k hsk, hd]
    rfl
  | some d =>
    cases d with
    | configured k₀ f v =>
      by_cases hv : v.truthy = true
      · rw [destroy_clears h c k r k₀ f v hr hd hv, lookupDep_updateDep,
          lookupDep_congr_deps h (hookHeap h v) (hookHeap_deps h v), hd]
        rfl
      · have hsk : ∀ r₂, getMapProp h c.valuesRef k = some r₂ →
            destroySkips (lookupDep h r₂) = true := by
          intro r₂ hr₂
          rw [hr] at hr₂
          have : r = r₂ := Option.some.inj hr₂
          rw [← this, hd]
          have hvf : v.truthy = false := by simpa using hv
          simp [destroySkips, hvf]
        rw [destroy_of_skips h c k hsk, hd]
        have hvf : v.truthy = false := by simpa using hv
        simp [destroySkips, hvf]
    | array k₀ b es =>
      have hsk : ∀ r₂, getMapProp h c.valuesRef k = some r₂ →
          destroySkips (lookupDep h r₂) = true := by
        intro r₂ hr₂
        rw [hr] at hr₂
        have : r = r₂ := Option.some.inj hr₂
        rw [← this, hd]
        rfl
      rw [destroy_of_skips h c k hsk, hd]
      rfl

theorem depIsResolved_destroy_mono (h : Heap) (c : ServiceContainer) (k : String)
    (r : Nat) (hres : depIsResolved (ServiceContainer.destroy h c k) r = true) :
    depIsResolved h r = true := by
  by_cases hcase : ∀ r₂, getMapProp h c.valuesRef k = some r₂ →
      destroySkips (lookupDep h r₂) = true
  · rw [destroy_of_skips h c k hcase] at hres
    exact hres
  · push_neg at hcase
    obtain ⟨r₀, hm, hns⟩ := hcase
    cases hd : lookupDep h r₀ with
    | none => rw [hd] at hns; exact absurd rfl hns
    | some d =>
      cases d with
      | configured k₀ f v =>
        rw [hd] at hns
        have hv : v.truthy = true := by simpa [destroySkips] using hns
        rw [destroy_clears h c k r₀ k₀ f v hm hd hv] at hres
        by_cases hr : r = r₀
        · subst hr
          rw [depIsResolved, lookupDep_updateDep,
            lookupDep_congr_deps h (hookHeap h v) (hookHeap_deps h v), hd] at hres
          exact absurd hres (by simp [JsValue.isUndef])
        · rw [depIsResolved, lookupDep_updateDep_ne _ _ _ _ hr,
            lookupDep_congr_deps h (hookHeap h v) (hookHeap_deps h v)] at hres
          exact hres
      | array k₀ b es => rw [hd] at hns; exact absurd rfl hns

theorem destroy_lookup_other (h : Heap) (c : ServiceContainer) (k : String) (r' : Nat)
    (hother : ∀ r₂, getMapProp h c.valuesRef k = some r₂ → r₂ ≠ r') :
    lookupDep (ServiceContainer.destroy h c k) r' = lookupDep h r' := by
  by_cases hcase : ∀ r₂, getMapProp h c.valuesRef k = some r₂ →
      destroySkips (lookupDep h r₂) = true
  · rw [destroy_of_skips h c k hcase]
  · push_neg at hcase
    obtain ⟨r₀, hm, hns⟩ := hcase
    cases hd : lookupDep h r₀ with
    | none => rw [hd] at hns; exact absurd rfl hns
    | some d =>
      cases d with
      | configured k₀ f v =>
        rw [hd] at hns
        have hv : v.truthy = true := by simpa [destroySkips] using hns
        rw [destroy_clears h c k r₀ k₀ f v hm hd hv]
        rw [lookupDep_updateDep_ne _ _ _ _ (Ne.symm (hother r₀ hm))]
        exact lookupDep_congr_deps h (hookHeap h v) (hookHeap_deps h v) r'
      | array k₀ b es => rw [hd] at hns; exact absurd rfl hns

theorem lookupMap_congr_maps (h hp : Heap) (hm : hp.maps = h.maps) (r : Nat) :
    lookupMap hp r = lookupMap h r := by
  simp [lookupMap, hm]

theorem foldDestroy_maps (c : ServiceContainer) (ks : List String) (h : Heap) :
    (ks.foldl (fun hh k => ServiceContainer.destroy hh c k) h).maps = h.maps := by
  induction ks generalizing h with
  | nil => rfl
  | cons a rest ih =>
    rw [List.foldl_cons, ih, destroy_maps]

theorem foldDestroy_getMapProp (c : ServiceContainer) (ks : List String) (h : Heap)
    (m : Nat) (k₂ : String) :
    getMapProp (ks.foldl (fun hh k => ServiceContainer.destroy hh c k) h) m k₂
      = getMapProp h m k₂ :=
  getMapProp_congr_maps h _ (foldDestroy_maps c ks h) m k₂

theorem foldDestroy_skips (c : ServiceContainer) (ks : List String) (h : Heap)
    (r' : Nat) (hs : destroySkips (lookupDep h r') = true) :
    destroySkips
      (lookupDep (ks.foldl (fun hh k => ServiceContainer.destroy hh c k) h) r')
      = true := by
  induction ks generalizing h with
  | nil => exact hs
  | cons a rest ih =>
    rw [List.foldl_cons]
    exact ih _ (destroySkips_destroy h c a r' hs)

theorem foldDestroy_skips_mem (c : ServiceContainer) (k : String) :
    ∀ (ks : List String) (h : Heap), k ∈ ks →
      ∀ r, getMapProp (ks.foldl (fun hh k₂ => ServiceContainer.destroy hh c k₂) h)
          c.valuesRef k = some r →
        destroySkips
          (lookupDep (ks.foldl (fun hh k₂ => ServiceContainer.destroy hh c k₂) h) r)
          = true := by
  intro ks
  induction ks with
  | nil =>
    intro h hk
    simp at hk
  | cons a rest ih =>
    intro h hk r hr
    rw [List.foldl_cons] at hr ⊢
    rcases List.mem_cons.mp hk with heq | hmem
    · subst heq
      rw [foldDestroy_getMapProp] at hr
      exact foldDestroy_skips c rest _ r (destroySkips_after_self h c k r hr)
    · exact ih (ServiceContainer.destroy h c a) hmem r hr

theorem foldDestroy_noop (c : ServiceContainer) (ks : List String) (h : Heap)
    (hno : ∀ k ∈ ks, ServiceContainer.destroy h c k = h) :
    ks.foldl (fun hh k => ServiceContainer.destroy hh c k) h = h := by
  induction ks with
  | nil => rfl
  | cons a rest ih =>
    rw [List.foldl_cons, hno a (List.mem_cons_self a rest)]
    exact ih (fun k hk => hno k (List.mem_cons_of_mem a hk))

theorem foldDestroy_resolved_mono (c : ServiceContainer) (ks : List String) (h : Heap)
    (r : Nat)
    (hres : depIsResolved
        (ks.foldl (fun hh k => ServiceContainer.destroy hh c k) h) r = true) :
    depIsResolved h r = true := by
  induction ks generalizing h with
  | nil => exact hres
  | cons a rest ih =>
    rw [List.foldl_cons] at hres
    exact depIsResolved_destroy_mono h c a r (ih (ServiceContainer.destroy h c a) hres)

theorem foldDestroy_lookup_other (c : ServiceContainer) (ks : List String) (h : Heap)
    (r' : Nat)
    (hother : ∀ k₂ r₂, getMapProp h c.valuesRef k₂ = some r₂ → r₂ ≠ r') :
    lookupDep (ks.foldl (fun hh k => ServiceContainer.destroy hh c k) h) r'
      = lookupDep h r' := by
  induction ks generalizing h with
  | nil => rfl
  | cons a rest ih =>
    rw [List.foldl_cons]
    rw [ih (ServiceContainer.destroy h c a) (fun k₂ r₂ h₂ => by
      rw [getMapProp_destroy] at h₂
      exact hother k₂ r₂ h₂)]
    exact destroy_lookup_other h c a r' (fun r₂ h₂ => hother a r₂ h₂)

theorem dispose_maps (h : Heap) (c : ServiceContainer) :
    (ServiceContainer.dispose h c).maps = h.maps := by
  unfold ServiceContainer.dispose
  exact foldDestroy_maps c _ h

theorem dispose_resolved_mono (h : Heap) (c : ServiceContainer) (r : Nat)
    (hres : depIsResolved (ServiceContainer.dispose h c) r = true) :
    depIsResolved h r = true := by
  unfold ServiceContainer.dispose at hres
  exact foldDestroy_resolved_mono c _ h r hres

theorem dispose_skips_mem (h : Heap) (c : ServiceContainer) (k : String)
    (hk : k ∈ resolvedKeys h c) :
    ∀ r, getMapProp (ServiceContainer.dispose h c) c.valuesRef k = some r →
      destroySkips (lookupDep (ServiceContainer.dispose h c) r) = true := by
  unfold ServiceContainer.dispose
  exact foldDestroy_skips_mem c k (resolvedKeys h c) h hk

/-- Disposing a container twice is the same as disposing it once. -/
theorem dispose_dispose (h : Heap) (c : ServiceContainer) :
    ServiceContainer.dispose (ServiceContainer.dispose h c) c
      = ServiceContainer.dispose h c := by
  show (resolvedKeys (ServiceContainer.dispose h c) c).foldl
      (fun hh k => ServiceContainer.destroy hh c k) (ServiceContainer.dispose h c)
    = ServiceContainer.dispose h c
  apply foldDestroy_noop
  intro k hk
  apply destroy_of_skips
  intro r hr
  unfold resolvedKeys at hk
  obtain ⟨p, hpf, hpk⟩ := List.mem_map.mp hk
  have hpf₂ := List.mem_filter.mp hpf
  have hpin : p ∈ (lookupMap h c.valuesRef).getD [] := by
    have hmem := hpf₂.1
    rwa [lookupMap_congr_maps h (ServiceContainer.dispose h c) (dispose_maps h c)]
      at hmem
  have hres : depIsResolved h p.2 = true :=
    dispose_resolved_mono h c p.2 (by simpa using hpf₂.2)
  have hk₁ : k ∈ resolvedKeys h c := by
    unfold resolvedKeys
    exact List.mem_map.mpr ⟨p, List.mem_filter.mpr ⟨hpin, by simpa using hres⟩, hpk⟩
  exact dispose_skips_mem h c k hk₁ r hr

/-- `v` exposes no dispose hook. -/
theorem hookHeap_nohook (h : Heap) (v : JsValue)
    (hno : ∀ id, v ≠ .inst id true) : hookHeap h v = h := by
  cases v with
  | inst id disp =>
    cases disp with
    | true => exact absurd rfl (hno id)
    | false => rfl
  | undef => rfl
  | null => rfl
  | bool b => rfl
  | num n => rfl
  | str s => rfl
  | ctorInst id nm args => rfl
  | arr elems => rfl

def c5Heap : Heap :=
  ⟨[(1, .configured "z" (.const (.num 0)) .undef)], [], [(0, [("z", 1)])], 2, 0, [], []⟩

def c5Container : ServiceContainer := .mk 0 none none

def c5HeapRes : Heap :=
  ⟨[(1, .configured "z" (.const (.num 0)) (.num 0))], [], [(0, [("z", 1)])], 2, 0,
   [.const (.num 0)], []⟩

/-- C5 fails on the code: a record whose factory resolved to the falsy
value `0` is `isResolved()`, so `dispose` selects it, but `destroy`'s
truthiness test skips it — the cached value is NOT cleared, the record
stays resolved, and re-resolving the key returns the cached `0` without
invoking the factory again (the call count stays at one), where the
claim requires the cache to be cleared and the factory re-invoked. -/
theorem c5_counterexample :
    getService 3 c5Container "z" c5Heap = (.ok (.num 0), c5HeapRes) ∧
    ServiceContainer.dispose c5HeapRes c5Container = c5HeapRes ∧
    depIsResolved c5HeapRes 1 = true ∧
    getService 3 c5Container "z" c5HeapRes = (.ok (.num 0), c5HeapRes) ∧
    countCalls (.const (.num 0)) c5HeapRes.calls = 1 := by
  refine ⟨rfl, rfl, rfl, rfl, rfl⟩

/-- C5 amended: `dispose` invokes the value-level dispose hook and
clears the cached value only for locally-held `ConfiguredDependency`
records whose cached value is truthy — the hook exactly once per such
record and only when the value exposes one, after which the record is
unresolved, so re-resolution re-runs the factory.  Records cached with
a falsy value are left cached (their factory is not re-run later), and
`ArrayDependency` records are skipped entirely by `destroy`.  Disposing
twice, or disposing with no resolved records, is a no-op, and records
not referenced by the local mapping (in particular the parent's) are
untouched. -/
theorem c5_dispose_truthiness (h : Heap) (c : ServiceContainer) (key : String)
    (r : Nat) (k : String) (f : Factory) (v : JsValue) :
    (∀ id, getMapProp h c.valuesRef key = some r → v = .inst id true →
      lookupDep h r = some (.configured k f v) →
      ServiceContainer.destroy h c key
        = updateDep { h with disposeCalls := id :: h.disposeCalls } r
            (.configured k f .undef)) ∧
    (getMapProp h c.valuesRef key = some r →
      lookupDep h r = some (.configured k f v) →
      v.truthy = true → (∀ id, v ≠ .inst id true) →
      ServiceContainer.destroy h c key = updateDep h r (.configured k f .undef)) ∧
    (getMapProp h c.valuesRef key = some r →
      lookupDep h r = some (.configured k f v) →
      v.truthy = false →
      ServiceContainer.destroy h c key = h) ∧
    (∀ b es, getMapProp h c.valuesRef key = some r →
      lookupDep h r = some (.array k b es) →
      ServiceContainer.destroy h c key = h) ∧
    (lookupDep h r = some (.configured k f v) →
      depIsResolved (updateDep (hookHeap h v) r (.configured k f .undef)) r
        = false) ∧
    (resolvedKeys h c = [] → ServiceContainer.dispose h c = h) ∧
    ServiceContainer.dispose (ServiceContainer.dispose h c) c
      = ServiceContainer.dispose h c ∧
    (∀ rp, (∀ k₂ r₂, getMapProp h c.valuesRef k₂ = some r₂ → r₂ ≠ rp) →
      lookupDep (ServiceContainer.dispose h c) rp = lookupDep h rp) := by
  refine ⟨?_, ?_, ?_, ?_, ?_, ?_, dispose_dispose h c, ?_⟩
  · intro id hm hveq hd
    subst hveq
    rw [destroy_clears h c key r k f (.inst id true) hm hd rfl]
    rfl
  · intro hm hd hv hno
    rw [destroy_clears h c key r k f v hm hd hv, hookHeap_nohook h v hno]
  · intro hm hd hv
    apply destroy_of_skips
    intro r₂ hr₂
    rw [hm] at hr₂
    rw [← Option.some.inj hr₂, hd]
    simp [destroySkips, hv]
  · intro b es hm hd
    apply destroy_of_skips
    intro r₂ hr₂
    rw [hm] at hr₂
    rw [← Option.some.inj hr₂, hd]
    rfl
  · intro hd
    rw [depIsResolved, lookupDep_updateDep,
      lookupDep_congr_deps h (hookHeap h v) (hookHeap_deps h v), hd]
    rfl
  · intro hkeys
    unfold ServiceContainer.dispose
    rw [hkeys]
    rfl
  · intro rp hother
    unfold ServiceContainer.dispose
    exact foldDestroy_lookup_other c (resolvedKeys h c) h rp hother

def c5wHook : Heap :=
  ⟨[(1, .configured "d" (.fresh "fd" true) (.inst 0 true))], [], [(0, [("d", 1)])],
   2, 1, [.fresh "fd" true], []⟩

def c5wPlain : Heap :=
  ⟨[(1, .configured "d" (.fresh "fd" false) (.inst 0 false))], [], [(0, [("d", 1)])],
   2, 1, [.fresh "fd" false], []⟩

def c5wArr : Heap :=
  ⟨[(1, .array "m" true 9)], [], [(0, [("m", 1)])], 2, 0, [], []⟩

theorem c5_dispose_truthiness_witness :
    (ServiceContainer.destroy c5wHook c5Container "d"
      = updateDep { c5wHook with disposeCalls := [0] } 1
          (.configured "d" (.fresh "fd" true) .undef)) ∧
    (ServiceContainer.destroy c5wPlain c5Container "d"
      = updateDep c5wPlain 1 (.configured "d" (.fresh "fd" false) .undef)) ∧
    (ServiceContainer.destroy c5HeapRes c5Container "z" = c5HeapRes) ∧
    (ServiceContainer.destroy c5wArr c5Container "m" = c5wArr) ∧
    (depIsResolved
        (updateDep (hookHeap c5wHook (.inst 0 true)) 1
          (.configured "d" (.fresh "fd" true) .undef)) 1 = false) ∧
    (ServiceContainer.dispose Heap.empty c5Container = Heap.empty) ∧
    (ServiceContainer.dispose (ServiceContainer.dispose c5wHook c5Container)
        c5Container
      = ServiceContainer.dispose c5wHook c5Container) ∧
    (lookupDep (ServiceContainer.dispose c5wHook c5Container) 5
      = lookupDep c5wHook 5) :=
  ⟨(c5_dispose_truthiness c5wHook c5Container "d" 1 "d" (.fresh "fd" true)
      (.inst 0 true)).1 0 rfl rfl rfl,
   (c5_dispose_truthiness c5wPlain c5Container "d" 1 "d" (.fresh "fd" false)
      (.inst 0 false)).2.1 rfl rfl rfl
      (fun id hcon => by cases hcon),
   (c5_dispose_truthiness c5HeapRes c5Container "z" 1 "z" (.const (.num 0))
      (.num 0)).2.2.1 rfl rfl rfl,
   (c5_dispose_truthiness c5wArr c5Container "m" 1 "m" (.const .null)
      .null).2.2.2.1 true 9 rfl rfl,
   (c5_dispose_truthiness c5wHook c5Container "d" 1 "d" (.fresh "fd" true)
      (.inst 0 true)).2.2.2.2.1 rfl,
   (c5_dispose_truthiness Heap.empty c5Container "d" 1 "d" (.const .null)
      .null).2.2.2.2.2.1 rfl,
   (c5_dispose_truthiness c5wHook c5Container "d" 1 "d" (.fresh "fd" true)
      (.inst 0 true)).2.2.2.2.2.2.1,
   (c5_dispose_truthiness c5wHook c5Container "d" 1 "d" (.fresh "fd" true)
      (.inst 0 true)).2.2.2.2.2.2.2 5 (fun k₂ r₂ h₂ => by
        by_cases hk : k₂ = "d"
        · subst hk
          have h3 : getMapProp c5wHook c5Container.valuesRef "d" = some 1 := rfl
          rw [h3] at h₂
          rw [← Option.some.inj h₂]
          omega
        · have h3 : getMapProp c5wHook c5Container.valuesRef k₂
              = getProp [("d", 1)] k₂ := rfl
          rw [h3] at h₂
          unfold getProp at h₂
          rw [List.find?_cons_of_neg _ (by simpa using Ne.symm hk)] at h₂
          simp at h₂)⟩

/-! ### Claim C6 -/

def c6Heap : Heap :=
  ⟨[(3, .configured "xs-0" (.fresh "f6" false) .undef), (2, .array "xs" false 1)],
   [(1, [3])], [(0, [("xs", 2)])], 4, 0, [], []⟩

def c6Parent : ServiceContainer := .mk 0 none none

def c6Fork : ServiceContainer × Heap :=
  ServiceContainer.createChildContainer c6Heap c6Parent "child"

def c6ChildGet : (Except String JsValue) × Heap :=
  getService 10 c6Fork.1 "xs" c6Fork.2

def c6ParentGet : (Except String JsValue) × Heap :=
  getService 10 c6Parent "xs" c6ChildGet.2

/-- C6 fails on the code: after forking, the child's clone of an
unresolved `ArrayDependency` shares the parent record's entry array, so
resolving the multi-binding through the child caches the entry's value
in objects the parent's record also references — the parent's later
resolution returns the very same instance and the entry factory has run
only once, so the child's resolution IS observable through the parent's
record. -/
theorem c6_counterexample :
    c6ChildGet.1 = .ok (.arr [.inst 0 false]) ∧
    c6ParentGet.1 = .ok (.arr [.inst 0 false]) ∧
    countCalls (.fresh "f6" false) c6ParentGet.2.calls = 1 := by
  refine ⟨rfl, rfl, rfl⟩

/-- C6 amended: `ConfiguredDependency.clone` allocates a new record
sharing the same factory with no cached value, but
`ArrayDependency.clone` allocates a new record with a reset `resolved`
flag that shares the SAME entry array as the original, so entry-level
state is aliased between a record and its clone. -/
theorem c6_clone_sharing (h : Heap) (r : Nat) (k : String) :
    (∀ f v, lookupDep h r = some (.configured k f v) →
      cloneDep h r = (h.nextRef, (allocDep h (.configured k f .undef)).2) ∧
      lookupDep (cloneDep h r).2 h.nextRef = some (.configured k f .undef) ∧
      (r < h.nextRef → (cloneDep h r).1 ≠ r)) ∧
    (∀ b es, lookupDep h r = some (.array k b es) →
      cloneDep h r = (h.nextRef, (allocDep h (.array k false es)).2) ∧
      lookupDep (cloneDep h r).2 h.nextRef = some (.array k false es) ∧
      (r < h.nextRef → (cloneDep h r).1 ≠ r)) := by
  constructor
  · intro f v hd
    have hc : cloneDep h r = (h.nextRef, (allocDep h (.configured k f .undef)).2) := by
      unfold cloneDep
      simp only [hd]
      rfl
    refine ⟨hc, ?_, ?_⟩
    · rw [hc]
      exact lookupDep_allocDep_fresh h _
    · intro hlt
      rw [hc]
      exact Nat.ne_of_gt hlt
  · intro b es hd
    have hc : cloneDep h r = (h.nextRef, (allocDep h (.array k false es)).2) := by
      unfold cloneDep
      simp only [hd]
      rfl
    refine ⟨hc, ?_, ?_⟩
    · rw [hc]
      exact lookupDep_allocDep_fresh h _
    · intro hlt
      rw [hc]
      exact Nat.ne_of_gt hlt

theorem c6_clone_sharing_witness :
    (cloneDep c6Heap 3
        = (4, (allocDep c6Heap (.configured "xs-0" (.fresh "f6" false) .undef)).2) ∧
      lookupDep (cloneDep c6Heap 3).2 4
        = some (.configured "xs-0" (.fresh "f6" false) .undef) ∧
      (3 < 4 → (cloneDep c6Heap 3).1 ≠ 3)) ∧
    (cloneDep c6Heap 2 = (4, (allocDep c6Heap (.array "xs" false 1)).2) ∧
      lookupDep (cloneDep c6Heap 2).2 4 = some (.array "xs" false 1) ∧
      (2 < 4 → (cloneDep c6Heap 2).1 ≠ 2)) :=
  ⟨(c6_clone_sharing c6Heap 3 "xs-0").1 (.fresh "f6" false) .undef rfl,
   (c6_clone_sharing c6Heap 2 "xs").2 false 1 rfl⟩

/-! ### Claim C7 -/

def c7HeapBuilt : Heap := ⟨[], [], [(0, [])], 1, 0, [], []⟩

def c7HeapAfter : Heap :=
  ⟨[(1, .configured "k" (.const (.num 5)) (.num 5))], [], [(0, [("k", 1)])], 2, 0, [], []⟩

/-- C7 fails on the code: `buildContainer` hands the collection's
`values` object to the container by reference, so a key registered on
the collection AFTER the container was built is visible to that
container — `get` returns the new value instead of failing with the
`Unrecognized service` error that a snapshot would produce. -/
theorem c7_counterexample :
    ServiceCollection.register c7HeapBuilt ⟨0⟩ "k" (.val (.num 5)) = c7HeapAfter ∧
    getService 3 (ServiceCollection.buildContainer ⟨0⟩) "k" c7HeapAfter
      = (.ok (.num 5), c7HeapAfter) ∧
    (Except.ok (.num 5) : Except String JsValue)
      ≠ .error ("Unrecognized service: " ++ "k") := by
  refine ⟨rfl, rfl, ?_⟩
  intro hcon
  cases hcon

/-- C7 amended: `buildContainer` does NOT snapshot — the new container
holds the collection's `values` object itself (same reference, no
parent), so a record registered on the collection afterwards is visible
through the already-built container.  `import`, by contrast, replaces
the collection's mapping with a freshly allocated object, leaving the
old mapping (still held by previously built containers) unchanged. -/
theorem c7_buildContainer_shares (h : Heap) (sc : ServiceCollection) (key : String)
    (fv : FactVal) (m : List (String × Nat)) (y : ServiceCollection) :
    (ServiceCollection.buildContainer sc).valuesRef = sc.valuesRef ∧
    (ServiceCollection.buildContainer sc).parent = none ∧
    (lookupMap h sc.valuesRef = some m →
      getMapProp (ServiceCollection.register h sc key fv)
          (ServiceCollection.buildContainer sc).valuesRef key = some h.nextRef ∧
      lookupDep (ServiceCollection.register h sc key fv) h.nextRef
        = some (newConfiguredDependency key fv)) ∧
    (ServiceCollection.mergeImport h sc y).1.valuesRef = h.nextRef ∧
    (sc.valuesRef < h.nextRef →
      lookupMap (ServiceCollection.mergeImport h sc y).2 sc.valuesRef
        = lookupMap h sc.valuesRef) := by
  refine ⟨rfl, rfl, ?_, rfl, ?_⟩
  · intro hm
    have hm1 : lookupMap (ServiceCollection.register h sc key fv) sc.valuesRef
        = some (setProp m key h.nextRef) := by
      unfold ServiceCollection.register
      rw [lookupMap_updateMap, lookupMap_allocDep, hm]
      rfl
    constructor
    · show getMapProp (ServiceCollection.register h sc key fv) sc.valuesRef key
        = some h.nextRef
      unfold getMapProp
      rw [hm1]
      exact getProp_setProp_self m key h.nextRef
    · unfold ServiceCollection.register
      rw [lookupDep_updateMap]
      exact lookupDep_allocDep_fresh h _
  · intro hlt
    show lookupMap (allocMap h _).2 sc.valuesRef = lookupMap h sc.valuesRef
    exact lookupMap_allocMap_ne h _ sc.valuesRef (Nat.ne_of_lt hlt)

theorem c7_buildContainer_shares_witness :
    (ServiceCollection.buildContainer (⟨0⟩ : ServiceCollection)).valuesRef = 0 ∧
    (ServiceCollection.buildContainer (⟨0⟩ : ServiceCollection)).parent = none ∧
    (getMapProp (ServiceCollection.register c7HeapBuilt ⟨0⟩ "k" (.val (.num 5)))
        (ServiceCollection.buildContainer (⟨0⟩ : ServiceCollection)).valuesRef "k"
        = some 1 ∧
      lookupDep (ServiceCollection.register c7HeapBuilt ⟨0⟩ "k" (.val (.num 5))) 1
        = some (newConfiguredDependency "k" (.val (.num 5)))) ∧
    (ServiceCollection.mergeImport c7HeapBuilt ⟨0⟩ ⟨0⟩).1.valuesRef = 1 ∧
    lookupMap (ServiceCollection.mergeImport c7HeapBuilt ⟨0⟩ ⟨0⟩).2 0
      = lookupMap c7HeapBuilt 0 :=
  ⟨(c7_buildContainer_shares c7HeapBuilt ⟨0⟩ "k" (.val (.num 5)) [] ⟨0⟩).1,
   (c7_buildContainer_shares c7HeapBuilt ⟨0⟩ "k" (.val (.num 5)) [] ⟨0⟩).2.1,
   (c7_buildContainer_shares c7HeapBuilt ⟨0⟩ "k" (.val (.num 5)) [] ⟨0⟩).2.2.1 rfl,
   (c7_buildContainer_shares c7HeapBuilt ⟨0⟩ "k" (.val (.num 5)) [] ⟨0⟩).2.2.2.1,
   (c7_buildContainer_shares c7HeapBuilt ⟨0⟩ "k" (.val (.num 5)) [] ⟨0⟩).2.2.2.2
     (by decide)⟩

/-! ### Claim C1 -/

theorem cloneDep_nextRef_le (h : Heap) (r : Nat) :
    h.nextRef ≤ (cloneDep h r).2.nextRef := by
  unfold cloneDep
  cases hd : lookupDep h r with
  | none => exact Nat.le_refl _
  | some d =>
    cases d with
    | configured k f v => exact Nat.le_succ _
    | array k b es => exact Nat.le_succ _

theorem cloneDep_lookupDep_lt (h : Heap) (r r₂ : Nat) (hlt : r₂ < h.nextRef) :
    lookupDep (cloneDep h r).2 r₂ = lookupDep h r₂ := by
  unfold cloneDep
  cases hd : lookupDep h r with
  | none => rfl
  | some d =>
    cases d with
    | configured k f v => exact lookupDep_allocDep_ne h _ r₂ (Nat.ne_of_lt hlt)
    | array k b es => exact lookupDep_allocDep_ne h _ r₂ (Nat.ne_of_lt hlt)

theorem cloneDep_maps (h : Heap) (r : Nat) : (cloneDep h r).2.maps = h.maps := by
  unfold cloneDep
  cases hd : lookupDep h r with
  | none => rfl
  | some d => cases d <;> rfl

theorem cloneEntries_nextRef_le (ps : List (String × Nat)) (h : Heap) :
    h.nextRef ≤ (cloneEntries ps h).2.nextRef := by
  induction ps generalizing h with
  | nil => exact Nat.le_refl _
  | cons p rest ih =>
    exact Nat.le_trans (cloneDep_nextRef_le h p.2) (ih (cloneDep h p.2).2)

theorem cloneEntries_lookupDep_lt (ps : List (String × Nat)) (h : Heap) (r₂ : Nat)
    (hlt : r₂ < h.nextRef) :
    lookupDep (cloneEntries ps h).2 r₂ = lookupDep h r₂ := by
  induction ps generalizing h with
  | nil => rfl
  | cons p rest ih =>
    show lookupDep (cloneEntries rest (cloneDep h p.2).2).2 r₂ = _
    rw [ih (cloneDep h p.2).2
      (Nat.lt_of_lt_of_le hlt (cloneDep_nextRef_le h p.2))]
    exact cloneDep_lookupDep_lt h p.2 r₂ hlt

theorem cloneEntries_maps (ps : List (String × Nat)) (h : Heap) :
    (cloneEntries ps h).2.maps = h.maps := by
  induction ps generalizing h with
  | nil => rfl
  | cons p rest ih =>
    exact (ih (cloneDep h p.2).2).trans (cloneDep_maps h p.2)

theorem cloneEntries_keys (ps : List (String × Nat)) (h : Heap) :
    (cloneEntries ps h).1.map Prod.fst = ps.map Prod.fst := by
  induction ps generalizing h with
  | nil => rfl
  | cons p rest ih =>
    show ((p.1, (cloneDep h p.2).1) :: (cloneEntries rest (cloneDep h p.2).2).1).map
        Prod.fst = _
    rw [List.map_cons, ih]
    rfl

theorem getProp_eq_of_mem_nodup (m : List (String × Nat)) (p : String × Nat)
    (hnd : (m.map Prod.fst).Nodup) (hp : p ∈ m) :
    getProp m p.1 = some p.2 := by
  induction m with
  | nil => simp at hp
  | cons q rest ih =>
    rw [List.map_cons, List.nodup_cons] at hnd
    rcases List.mem_cons.mp hp with heq | hmem
    · subst heq
      unfold getProp
      rw [List.find?_cons_of_pos _ (by simp)]
      rfl
    · have hne : q.1 ≠ p.1 := by
        intro hcon
        exact hnd.1 (hcon ▸ List.mem_map_of_mem Prod.fst hmem)
      unfold getProp
      rw [List.find?_cons_of_neg _ (by simpa using hne)]
      exact ih hnd.2 hmem

theorem getProp_cloneEntries_none (ps : List (String × Nat)) (h : Heap) (k : String)
    (hk : ∀ p ∈ ps, p.1 ≠ k) :
    getProp (cloneEntries ps h).1 k = none := by
  unfold getProp
  rw [List.find?_eq_none.mpr ?_]
  · rfl
  · intro q hq
    simp only [decide_eq_true_eq]
    intro hq1
    have hmem : q.1 ∈ (cloneEntries ps h).1.map Prod.fst :=
      List.mem_map_of_mem Prod.fst hq
    rw [cloneEntries_keys] at hmem
    obtain ⟨p, hp, hpq⟩ := List.mem_map.mp hmem
    exact hk p hp (by rw [hpq, hq1])

theorem cloneEntries_clone_spec (k₀ : String) (r₀ : Nat) (kk : String) (ff : Factory)
    (vv : JsValue) :
    ∀ (ps : List (String × Nat)) (h : Heap),
      (ps.map Prod.fst).Nodup → (∀ p ∈ ps, p.2 < h.nextRef) →
      (k₀, r₀) ∈ ps → lookupDep h r₀ = some (.configured kk ff vv) →
      ∃ rc, getProp (cloneEntries ps h).1 k₀ = some rc ∧ h.nextRef ≤ rc ∧
        lookupDep (cloneEntries ps h).2 rc = some (.configured kk ff .undef) := by
  intro ps
  induction ps with
  | nil =>
    intro h _ _ hmem
    simp at hmem
  | cons p rest ih =>
    intro h hnd hwf hmem hdep
    rw [List.map_cons, List.nodup_cons] at hnd
    rcases List.mem_cons.mp hmem with heq | hmem₂
    · have hp1 : p.1 = k₀ := by rw [← heq]
      have hp2 : p.2 = r₀ := by rw [← heq]
      have hcd : cloneDep h p.2 = (h.nextRef, (allocDep h (.configured kk ff .undef)).2) := by
        unfold cloneDep
        rw [hp2, hdep]
        rfl
      refine ⟨h.nextRef, ?_, Nat.le_refl _, ?_⟩
      · show getProp ((p.1, (cloneDep h p.2).1)
            :: (cloneEntries rest (cloneDep h p.2).2).1) k₀ = some h.nextRef
        unfold getProp
        rw [List.find?_cons_of_pos _ (by simp [hp1])]
        rw [hcd]
        rfl
      · show lookupDep (cloneEntries rest (cloneDep h p.2).2).2 h.nextRef = _
        rw [hcd]
        rw [cloneEntries_lookupDep_lt rest _ h.nextRef (Nat.lt_succ_self _)]
        exact lookupDep_allocDep_fresh h _
    · have hne : p.1 ≠ k₀ := by
        intro hcon
        apply hnd.1
        rw [hcon]
        exact List.mem_map_of_mem Prod.fst hmem₂
      obtain ⟨rc, hg, hle, hl⟩ := ih (cloneDep h p.2).2 hnd.2
        (fun q hq => Nat.lt_of_lt_of_le (hwf q (List.mem_cons_of_mem p hq))
          (cloneDep_nextRef_le h p.2))
        hmem₂
        (by rw [cloneDep_lookupDep_lt h p.2 r₀ (hwf (k₀, r₀) hmem)]; exact hdep)
      refine ⟨rc, ?_, Nat.le_trans (cloneDep_nextRef_le h p.2) hle, hl⟩
      show getProp ((p.1, (cloneDep h p.2).1)
          :: (cloneEntries rest (cloneDep h p.2).2).1) k₀ = some rc
      unfold getProp
      rw [List.find?_cons_of_neg _ (by simpa using hne)]
      exact hg

/-- The entries a fork copies: the parent's unresolved local entries. -/
def forkEntries (h : Heap) (c : ServiceContainer) : List (String × Nat) :=
  ((lookupMap h c.valuesRef).getD []).filter (fun p => !depIsResolved h p.2)

theorem createChild_eq (h : Heap) (c : ServiceContainer) (prov : String) :
    ServiceContainer.createChildContainer h c prov
      = (.mk (cloneEntries (forkEntries h c) h).2.nextRef (some c) (some prov),
         (allocMap (cloneEntries (forkEntries h c) h).2
           (cloneEntries (forkEntries h c) h).1).2) := rfl

theorem child_getMapProp (h : Heap) (c : ServiceContainer) (prov key : String) :
    getMapProp (ServiceContainer.createChildContainer h c prov).2
        (ServiceContainer.createChildContainer h c prov).1.valuesRef key
      = getProp (cloneEntries (forkEntries h c) h).1 key := by
  rw [createChild_eq]
  unfold getMapProp
  rw [show (ServiceContainer.mk (cloneEntries (forkEntries h c) h).2.nextRef
      (some c) (some prov)).valuesRef
      = (cloneEntries (forkEntries h c) h).2.nextRef from rfl]
  rw [lookupMap_allocMap_fresh]

theorem child_lookupMap_old (h : Heap) (c : ServiceContainer) (prov : String)
    (x : Nat) (hx : x < h.nextRef) :
    lookupMap (ServiceContainer.createChildContainer h c prov).2 x = lookupMap h x := by
  rw [createChild_eq]
  rw [lookupMap_allocMap_ne _ _ x
    (Nat.ne_of_lt (Nat.lt_of_lt_of_le hx (cloneEntries_nextRef_le (forkEntries h c) h)))]
  exact lookupMap_congr_maps h _ (cloneEntries_maps (forkEntries h c) h) x

theorem child_lookupDep_old (h : Heap) (c : ServiceContainer) (prov : String)
    (r : Nat) (hr : r < h.nextRef) :
    lookupDep (ServiceContainer.createChildContainer h c prov).2 r = lookupDep h r := by
  rw [createChild_eq]
  exact cloneEntries_lookupDep_lt (forkEntries h c) h r hr

/-- C1 amended: at fork time the child's mapping receives clones of
exactly the parent's unresolved records.  For a key whose record is
already resolved on the parent, the child's mapping omits the key, so
the child's `get` delegates to the parent and — when the parent record
caches a defined value — returns exactly that cached instance without
re-invoking the factory.  For a key unresolved at fork time, the child
holds a fresh clone sharing the same factory, and resolving a
fresh-factory record mutates only that record, so child and parent
resolve independently of each other. -/
theorem c1_fork_semantics (h : Heap) (c : ServiceContainer) (key prov : String)
    (r n : Nat) (m : List (String × Nat)) (k : String) (f : Factory) (v : JsValue)
    (hm : lookupMap h c.valuesRef = some m)
    (hnd : (m.map Prod.fst).Nodup)
    (hwf : ∀ p ∈ m, p.2 < h.nextRef)
    (hcv : c.valuesRef < h.nextRef)
    (hr : getProp m key = some r) :
    (depIsResolved h r = true →
      getMapProp (ServiceContainer.createChildContainer h c prov).2
          (ServiceContainer.createChildContainer h c prov).1.valuesRef key = none ∧
      getService (n + 1) (ServiceContainer.createChildContainer h c prov).1 key
          (ServiceContainer.createChildContainer h c prov).2
        = getService n c key (ServiceContainer.createChildContainer h c prov).2) ∧
    (lookupDep h r = some (.configured k f v) → v.isUndef = false →
      getService (n + 3) (ServiceContainer.createChildContainer h c prov).1 key
          (ServiceContainer.createChildContainer h c prov).2
        = (.ok v, (ServiceContainer.createChildContainer h c prov).2)) ∧
    (lookupDep h r = some (.configured k f .undef) →
      ∃ r₂, getMapProp (ServiceContainer.createChildContainer h c prov).2
          (ServiceContainer.createChildContainer h c prov).1.valuesRef key = some r₂ ∧
        r₂ ≠ r ∧
        lookupDep (ServiceContainer.createChildContainer h c prov).2 r₂
          = some (.configured k f .undef)) ∧
    (∀ (hh : Heap) (rr rOther m₂ : Nat) (c₂ : ServiceContainer) (kk tag : String)
      (d : Bool),
      rr ≠ rOther → lookupDep hh rr = some (.configured kk (.fresh tag d) .undef) →
      resolveDep (m₂ + 2) rr c₂ hh
        = (.ok (.inst hh.nextInst d),
           updateDep
             { hh with calls := .fresh tag d :: hh.calls, nextInst := hh.nextInst + 1 }
             rr (.configured kk (.fresh tag d) (.inst hh.nextInst d))) ∧
      lookupDep
          (updateDep
            { hh with calls := .fresh tag d :: hh.calls, nextInst := hh.nextInst + 1 }
            rr (.configured kk (.fresh tag d) (.inst hh.nextInst d))) rOther
        = lookupDep hh rOther) := by
  have hrlt : r < h.nextRef := by
    unfold getProp at hr
    obtain ⟨p₀, hfind, hp₀⟩ := Option.map_eq_some'.mp hr
    have hp₀m : p₀ ∈ m := List.mem_of_find?_eq_some hfind
    have := hwf p₀ hp₀m
    rw [hp₀] at this
    exact this
  have hmiss : depIsResolved h r = true →
      getMapProp (ServiceContainer.createChildContainer h c prov).2
        (ServiceContainer.createChildContainer h c prov).1.valuesRef key = none := by
    intro hres
    rw [child_getMapProp]
    apply getProp_cloneEntries_none
    intro p hp hpk
    have hpm : p ∈ m.filter (fun p => !depIsResolved h p.2) := by
      unfold forkEntries at hp
      rw [hm] at hp
      exact hp
    have hpf := List.mem_filter.mp hpm
    have hgp : getProp m p.1 = some p.2 := getProp_eq_of_mem_nodup m p hnd hpf.1
    rw [hpk, hr] at hgp
    have hp2 : p.2 = r := (Option.some.inj hgp).symm
    have hunres := hpf.2
    rw [hp2] at hunres
    rw [hres] at hunres
    simp at hunres
  refine ⟨?_, ?_, ?_, ?_⟩
  · intro hres
    refine ⟨hmiss hres, ?_⟩
    exact getService_parent n _ key _ c (hmiss hres) rfl
  · intro hdep hv
    have hres : depIsResolved h r = true := by
      unfold depIsResolved
      rw [hdep]
      simp [hv]
    rw [getService_parent (n + 2) _ key _ c (hmiss hres) rfl]
    have hmap₂ : getMapProp (ServiceContainer.createChildContainer h c prov).2
        c.valuesRef key = some r := by
      unfold getMapProp
      rw [child_lookupMap_old h c prov c.valuesRef hcv, hm]
      exact hr
    rw [getService_local (n + 1) c key _ r hmap₂]
    exact resolveDep_cached n r c _ k f v
      ((child_lookupDep_old h c prov r hrlt).trans hdep) hv
  · intro hdep
    have hunres : depIsResolved h r = false := by
      unfold depIsResolved
      rw [hdep]
      rfl
    have hmem : (key, r) ∈ m := by
      unfold getProp at hr
      obtain ⟨p₀, hfind, hp₀⟩ := Option.map_eq_some'.mp hr
      have hp₀m : p₀ ∈ m := List.mem_of_find?_eq_some hfind
      have hp₀k : p₀.1 = key := by
        have := List.find?_some hfind
        simpa using this
      have : (key, r) = p₀ := by
        rw [← hp₀k, ← hp₀]
      rw [this]
      exact hp₀m
    have hmemf : (key, r) ∈ m.filter (fun p => !depIsResolved h p.2) := by
      apply List.mem_filter.mpr
      refine ⟨hmem, ?_⟩
      show (!depIsResolved h (key, r).2) = true
      rw [show ((key, r) : String × Nat).2 = r from rfl, hunres]
      rfl
    have hndf : ((m.filter (fun p => !depIsResolved h p.2)).map Prod.fst).Nodup :=
      hnd.sublist (List.Sublist.map Prod.fst (List.filter_sublist m))
    have hwff : ∀ p ∈ m.filter (fun p => !depIsResolved h p.2), p.2 < h.nextRef :=
      fun p hp => hwf p (List.mem_filter.mp hp).1
    obtain ⟨rc, hg, hle, hl⟩ := cloneEntries_clone_spec key r k f .undef
      (m.filter (fun p => !depIsResolved h p.2)) h hndf hwff hmemf hdep
    refine ⟨rc, ?_, ?_, ?_⟩
    · rw [child_getMapProp]
      unfold forkEntries
      rw [hm]
      exact hg
    · exact Nat.ne_of_gt (Nat.lt_of_lt_of_le hrlt hle)
    · rw [createChild_eq]
      show lookupDep (cloneEntries (forkEntries h c) h).2 rc = _
      unfold forkEntries
      rw [hm]
      exact hl
  · intro hh rr rOther m₂ c₂ kk tag d hne hdep₂
    constructor
    · rw [resolveDep_factoryRun (m₂ + 1) rr c₂ hh kk (.fresh tag d) hdep₂]
      rfl
    · rw [lookupDep_updateDep_ne _ _ _ _ (Ne.symm hne)]
      rfl

def c1Heap : Heap :=
  ⟨[(1, .configured "a" (.fresh "fa" false) (.inst 0 false))], [],
   [(0, [("a", 1)])], 2, 1, [.fresh "fa" false], []⟩

def c1HeapU : Heap :=
  ⟨[(1, .configured "a" (.fresh "fa" false) .undef)], [],
   [(0, [("a", 1)])], 2, 0, [], []⟩

def c1Parent : ServiceContainer := .mk 0 none none

def c1Fork : ServiceContainer × Heap :=
  ServiceContainer.createChildContainer c1Heap c1Parent "child"

def c1ChildGet : (Except String JsValue) × Heap :=
  getService 10 c1Fork.1 "a" c1Fork.2

/-- C1 fails on the code: key "a" is resolved on the parent (cached
instance 0, its factory already invoked once) before the fork.  The
child's mapping omits "a" entirely, and the child's `get("a")` returns
the parent's cached instance 0 with the factory still invoked exactly
once in total — not a separate instance from a fresh factory run. -/
theorem c1_counterexample :
    c1ChildGet.1 = .ok (.inst 0 false) ∧
    countCalls (.fresh "fa" false) c1ChildGet.2.calls = 1 ∧
    getMapProp c1Fork.2 c1Fork.1.valuesRef "a" = none := by
  refine ⟨rfl, rfl, rfl⟩

theorem c1_fork_semantics_witness :
    (getMapProp (ServiceContainer.createChildContainer c1Heap c1Parent "child").2
        (ServiceContainer.createChildContainer c1Heap c1Parent "child").1.valuesRef "a"
        = none ∧
      getService 1 (ServiceContainer.createChildContainer c1Heap c1Parent "child").1
          "a" (ServiceContainer.createChildContainer c1Heap c1Parent "child").2
        = getService 0 c1Parent "a"
            (ServiceContainer.createChildContainer c1Heap c1Parent "child").2) ∧
    (getService 3 (ServiceContainer.createChildContainer c1Heap c1Parent "child").1
        "a" (ServiceContainer.createChildContainer c1Heap c1Parent "child").2
      = (.ok (.inst 0 false),
         (ServiceContainer.createChildContainer c1Heap c1Parent "child").2)) ∧
    (∃ r₂, getMapProp (ServiceContainer.createChildContainer c1HeapU c1Parent "child").2
        (ServiceContainer.createChildContainer c1HeapU c1Parent "child").1.valuesRef "a"
        = some r₂ ∧
      r₂ ≠ 1 ∧
      lookupDep (ServiceContainer.createChildContainer c1HeapU c1Parent "child").2 r₂
        = some (.configured "a" (.fresh "fa" false) .undef)) ∧
    (resolveDep 2 1 c1Parent c1HeapU
        = (.ok (.inst c1HeapU.nextInst false),
           updateDep
             { c1HeapU with calls := .fresh "fa" false :: c1HeapU.calls,
                            nextInst := c1HeapU.nextInst + 1 }
             1 (.configured "a" (.fresh "fa" false) (.inst c1HeapU.nextInst false))) ∧
      lookupDep
          (updateDep
            { c1HeapU with calls := .fresh "fa" false :: c1HeapU.calls,
                           nextInst := c1HeapU.nextInst + 1 }
            1 (.configured "a" (.fresh "fa" false) (.inst c1HeapU.nextInst false))) 0
        = lookupDep c1HeapU 0) :=
  ⟨(c1_fork_semantics c1Heap c1Parent "a" "child" 1 0 [("a", 1)] "a"
      (.fresh "fa" false) (.inst 0 false) rfl (by simp) (by decide) (by decide)
      rfl).1 rfl,
   (c1_fork_semantics c1Heap c1Parent "a" "child" 1 0 [("a", 1)] "a"
      (.fresh "fa" false) (.inst 0 false) rfl (by simp) (by decide) (by decide)
      rfl).2.1 rfl rfl,
   (c1_fork_semantics c1HeapU c1Parent "a" "child" 1 0 [("a", 1)] "a"
      (.fresh "fa" false) .undef rfl (by simp) (by decide) (by decide)
      rfl).2.2.1 rfl,
   (c1_fork_semantics c1HeapU c1Parent "a" "child" 1 0 [("a", 1)] "a"
      (.fresh "fa" false) .undef rfl (by simp) (by decide) (by decide)
      rfl).2.2.2 c1HeapU 1 0 0 c1Parent "a" "fa" false (by decide) rfl⟩

end Containr